import Mathlib

/-!
Verification of the hierarchical NBA player store
(`SEGUNDOPARCIALHUALPA.py`): a three-level directory hierarchy
`base / conferencia / equipo / players.csv`, with create, recursive read,
update, delete and global statistics over the flattened record collection.

Modelling conventions, used throughout:

* The filesystem is a finite ordered tree `FS`.  A directory is represented
  by its listing spine (`nilDir` / `consDir name child rest`), in directory
  listing order; a file named `players.csv` is represented by its parsed
  record list (the CSV text layer — header line, quoting — is abstracted
  away: `leer_csv`/`escribir_csv` in the source are a bijection between the
  file text and such a record list).
* Paths are lists of path components (`os.path.join` is `++`).  The global
  `BASE_DIR` is threaded as an explicit `base : Path` parameter.
* Python floats are modelled as exact rationals `ℚ`; `float(...)` on a
  string is `parseFloat`, covering the plain decimal literals this program
  exchanges (no exponents / `inf` / `nan` / `_` separators, which never
  arise here); `str(...)` on a float is `formatFloat`.
* `uuid.uuid4()` is modelled as an injective supply of fresh non-empty
  identifier strings driven by a counter (`UuidGen`); the randomness of
  `uuid4` is not modelled, only its contract of producing fresh ids.
* A Python exception is an `Except.error` / error-carrying result; the
  state component returned alongside it is the filesystem as mutated up to
  the raise point.
-/

namespace SegundoParcial

/-- Path: a filesystem path as its list of components. -/
abbrev Path := List String

/-- CSV_FILENAME from the source. -/
def CSV_FILENAME : String := "players.csv"

/-- One row of a `players.csv` file, a mapping from the fixed CSV_HEADERS
(id, nombre, posicion, puntos, rebotes, asistencias) to their stored string
representation, as produced by `csv.DictReader`. -/
structure Row where
  id : String
  nombre : String
  posicion : String
  puntos : String
  rebotes : String
  asistencias : String
deriving DecidableEq

/-- A filesystem node.  `file rows` is a regular file holding the given
records; a directory is its listing spine: `nilDir` is the empty listing and
`consDir name child rest` lists the entry `name` (with subtree `child`)
followed by the remaining entries `rest`.  The spine order is the
`os.listdir` order. -/
inductive FS where
  | file (rows : List Row)
  | nilDir
  | consDir (name : String) (child : FS) (rest : FS)
deriving DecidableEq

/-- `os.path.isdir`: true for directory nodes. -/
def FS.isDir : FS → Bool
  | .file _ => false
  | _ => true

/-- Names listed by a directory spine (`os.listdir`). -/
def FS.names : FS → List String
  | .consDir n _ rest => n :: rest.names
  | _ => []

/-- Resolve a path from a node: `some` node when every component exists
(`os.path.exists`), `none` otherwise.  Mirrors real path resolution: a
directory resolves a component to its first entry of that name, a file has
no children. -/
def FS.lookup : FS → Path → Option FS
  | e, [] => some e
  | .file _, _ :: _ => none
  | .nilDir, _ :: _ => none
  | .consDir m c rest, n :: p =>
      if m = n then c.lookup p else FS.lookup rest (n :: p)

/-- Well-formedness of a filesystem tree, true of any value representing a
real directory tree: every directory lists pairwise distinct names
(`os.listdir` cannot repeat an entry) and every directory spine is a proper
listing (its tail is again a listing, never a file node). -/
def FS.wfB : FS → Bool
  | .file _ => true
  | .nilDir => true
  | .consDir n c rest =>
      decide (n ∉ rest.names) && rest.isDir && c.wfB && rest.wfB

/-- `open(path, "w")` with a full record list: overwrite the file at `path`,
creating it (at the end of its parent's listing) when the parent directory
exists and the file does not.  The branches that Python would turn into an
uncaught exception (writing at an empty path, through a file, or into a
missing parent directory) leave the tree unchanged or are unreachable at
every call site verified below. -/
def FS.write : FS → Path → List Row → FS
  | _, [], rows => .file rows
  | .file f, _ :: _, _ => .file f
  | .nilDir, [n], rows => .consDir n (.file rows) .nilDir
  | .nilDir, _ :: _ :: _, _ => .nilDir
  | .consDir m c rest, n :: p, rows =>
      if m = n then .consDir m (c.write p rows) rest
      else .consDir m c (FS.write rest (n :: p) rows)

/-- A fresh chain of empty directories for the given remaining components,
as created by `os.makedirs`. -/
def FS.mkChain : Path → FS
  | [] => .nilDir
  | n :: p => .consDir n (FS.mkChain p) .nilDir

/-- `os.makedirs(path, exist_ok=True)`: create every missing directory along
`path`.  When a component exists as a regular file Python raises; the model
leaves the tree unchanged there (the theorems guard this with
`canMkdirs`). -/
def FS.mkdirs : FS → Path → FS
  | e, [] => e
  | .file f, _ :: _ => .file f
  | .nilDir, n :: p => .consDir n (FS.mkChain p) .nilDir
  | .consDir m c rest, n :: p =>
      if m = n then .consDir m (c.mkdirs p) rest
      else .consDir m c (FS.mkdirs rest (n :: p))

/-- `os.makedirs(path, exist_ok=True)` succeeds: no component of `path`
exists as a regular file. -/
def FS.canMkdirs : FS → Path → Bool
  | .file _, _ => false
  | .nilDir, _ => true
  | .consDir _ _ _, [] => true
  | .consDir m c rest, n :: p =>
      if m = n then c.canMkdirs p else FS.canMkdirs rest (n :: p)

/-- The record list of the file at `p`, when `p` resolves to a file. -/
def fileAt (fs : FS) (p : Path) : Option (List Row) :=
  match fs.lookup p with
  | some (.file rows) => some rows
  | _ => none

/-- `leer_csv`: read the full record list of the CSV at `ruta`; a missing
file reads as the empty list (`FileNotFoundError` is caught and returns
`[]`).  Python would raise on a directory; every call site below passes a
file path. -/
def leer_csv (fs : FS) (ruta : Path) : List Row :=
  match fs.lookup ruta with
  | some (.file rows) => rows
  | _ => []

/-- `escribir_csv`: overwrite the CSV at `ruta` with the header plus the
given rows. -/
def escribir_csv (fs : FS) (ruta : Path) (filas : List Row) : FS :=
  fs.write ruta filas

/-- `asegurar_directorio`: create the directories `BASE_DIR/partes` if
missing and return the final path. -/
def asegurar_directorio (fs : FS) (base : Path) (partes : List String) :
    FS × Path :=
  (fs.mkdirs (base ++ partes), base ++ partes)

/-- `inicializar_csv_si_necesario`: create the CSV (header only, i.e. no
rows) inside `ruta_dir` when it does not exist; return its path. -/
def inicializar_csv_si_necesario (fs : FS) (ruta_dir : Path) : FS × Path :=
  let ruta_csv := ruta_dir ++ [CSV_FILENAME]
  if (fs.lookup ruta_csv).isSome then (fs, ruta_csv)
  else (fs.write ruta_csv [], ruta_csv)

/-- The recursive body of `leer_todos_los_jugadores` over a directory
listing: directories are descended into, a file named `players.csv` is
loaded and each of its rows tagged with the file's full path (the `_origen`
attribute), any other file is skipped. -/
def leerD : FS → Path → List (Row × Path)
  | .consDir n (.file rows) rest, base =>
      (if n = CSV_FILENAME then rows.map (fun r => (r, base ++ [n])) else [])
        ++ leerD rest base
  | .consDir n c rest, base => leerD c (base ++ [n]) ++ leerD rest base
  | _, _ => []

/-- `leer_todos_los_jugadores`: recursively flatten the whole hierarchy
under `base` into origin-tagged records; a missing root reads as the empty
collection.  (`BASE_DIR` is a directory whenever it exists; on a file root
Python's `os.listdir` would raise.) -/
def leer_todos_los_jugadores (fs : FS) (base : Path) : List (Row × Path) :=
  match fs.lookup base with
  | none => []
  | some (.file _) => []
  | some d => leerD d base

/-- Python `str.strip()`: remove leading and trailing whitespace. -/
def pyStrip (s : String) : String :=
  ⟨((s.data.dropWhile Char.isWhitespace).reverse.dropWhile
      Char.isWhitespace).reverse⟩

/-- Python `str.lower()`: lower-case every character. -/
def pyLower (s : String) : String :=
  ⟨s.data.map Char.toLower⟩

/-- `validar_nombre`: a name is valid when non-empty after trimming. -/
def validar_nombre (nombre : String) : Bool :=
  pyStrip nombre ≠ ""

/-- The fixed position set of `validar_posicion`. -/
def posiciones_validas : List String :=
  ["base", "escolta", "alero", "ala-pivot", "pivot"]

/-- `validar_posicion`: the lower-cased position must belong to the fixed
set. -/
def validar_posicion (posicion : String) : Bool :=
  posiciones_validas.contains (pyLower posicion)

/-- Value of a number-like field as handed to `alta_jugador`: either a
string (as read from `input()`) or an already numeric value. -/
inductive PyVal where
  | str (s : String)
  | num (x : ℚ)
deriving DecidableEq

/-- Numeric value of a digit list, most significant first. -/
def digitsToNat (l : List Char) : Nat :=
  l.foldl (fun a c => a * 10 + (c.toNat - 48)) 0

/-- True when the list is non-empty and all decimal digits. -/
def allDigits (l : List Char) : Bool :=
  !l.isEmpty && l.all (fun c => c.isDigit)

/-- Split a character list at every `'.'`. -/
def splitDot : List Char → List (List Char)
  | [] => [[]]
  | c :: rest =>
      if c = '.' then [] :: splitDot rest
      else
        match splitDot rest with
        | h :: t => (c :: h) :: t
        | [] => [[c]]

/-- Python `float(...)` on a string, for the plain decimal literals this
program exchanges: optional surrounding whitespace, optional sign, digits
with at most one decimal point (at least one digit overall).  Anything else
is a `ValueError`, i.e. `none`.  The denoted value is the exact rational
`±(intpart.fracpart)`. -/
def parseFloat (s : String) : Option ℚ :=
  let t := (pyStrip s).data
  let su : Int × List Char :=
    match t with
    | '-' :: r => (-1, r)
    | '+' :: r => (1, r)
    | r => (1, r)
  match splitDot su.2 with
  | [a] =>
      if allDigits a then some (Rat.divInt (su.1 * (digitsToNat a : Int)) 1)
      else none
  | [a, b] =>
      if (allDigits a || a.isEmpty) && (allDigits b || b.isEmpty)
          && !(a.isEmpty && b.isEmpty) then
        some (Rat.divInt
          (su.1 * ((digitsToNat a * 10 ^ b.length + digitsToNat b : Nat) : Int))
          ((10 ^ b.length : Nat) : Int))
      else none
  | _ => none

/-- Python `float(...)` applied to a field value; on a non-string,
non-numeric value Python raises `TypeError`, which the model folds into
`none` as well. -/
def PyVal.toFloat? : PyVal → Option ℚ
  | .num x => some x
  | .str s => parseFloat s

/-- `validar_estadistica`: the value must convert to a number and be
non-negative. -/
def validar_estadistica (valor : PyVal) : Bool :=
  match valor.toFloat? with
  | some v => decide (0 ≤ v)
  | none => false

/-- Left-pad a numeral with zeros to the given width. -/
def padZeros (s : String) (k : Nat) : String :=
  String.mk (List.replicate (k - s.length) '0') ++ s

/-- Python `str(...)` on a float: the shortest decimal expansion, with a
trailing `.0` on integral values.  Defined for every rational; actual float
values always have a terminating decimal expansion, which the search over
`k` finds. -/
def formatFloat (q : ℚ) : String :=
  let sign := if q < 0 then "-" else ""
  let n := q.num.natAbs
  let d := q.den
  match (List.range 40).find? (fun k => decide (d ∣ 10 ^ k)) with
  | some k =>
      let m := n * 10 ^ k / d
      if k = 0 then sign ++ toString m ++ ".0"
      else sign ++ toString (m / 10 ^ k) ++ "."
        ++ padZeros (toString (m % 10 ^ k)) k
  | none => sign ++ toString n ++ "." ++ toString d

/-- The in-memory `nuevo` dictionary built by `alta_jugador`: identifier and
normalized strings plus numeric (not string) statistics. -/
structure Jugador where
  id : String
  nombre : String
  posicion : String
  puntos : ℚ
  rebotes : ℚ
  asistencias : ℚ
deriving DecidableEq

/-- `{k: str(v) for k, v in nuevo.items()}`: the stringified row appended to
the CSV. -/
def Jugador.toRow (j : Jugador) : Row :=
  ⟨j.id, j.nombre, j.posicion,
    formatFloat j.puntos, formatFloat j.rebotes, formatFloat j.asistencias⟩

/-- The `jugador` input mapping of `alta_jugador`; a `none` field is a key
absent from the dictionary. -/
structure JugadorInput where
  nombre : Option String := none
  posicion : Option String := none
  puntos : Option PyVal := none
  rebotes : Option PyVal := none
  asistencias : Option PyVal := none

/-- State of the `uuid.uuid4()` fresh-identifier supply. -/
structure UuidGen where
  counter : Nat
deriving DecidableEq

/-- The `n`-th generated identifier: non-empty, and distinct identifiers for
distinct `n`. -/
def mkUuid (n : Nat) : String :=
  String.mk ('u' :: List.replicate n 'x')

/-- Draw a fresh identifier (`str(uuid.uuid4())`). -/
def UuidGen.fresh (g : UuidGen) : String × UuidGen :=
  (mkUuid g.counter, ⟨g.counter + 1⟩)

/-- The `KeyError` raised by `nuevo = {...}` in `alta_jugador` when a
required key is missing from the input mapping, in the dictionary's
evaluation order. -/
def keyErrorMsg (j : JugadorInput) : String :=
  if j.nombre.isNone then "KeyError: nombre"
  else if j.posicion.isNone then "KeyError: posicion"
  else if j.puntos.isNone then "KeyError: puntos"
  else if j.rebotes.isNone then "KeyError: rebotes"
  else "KeyError: asistencias"

/-- Result of `alta_jugador`: the returned record or the raised error,
together with the filesystem as left behind and the identifier supply. -/
structure AltaOut where
  result : Except String Jugador
  fs : FS
  gen : UuidGen

/-- `alta_jugador`: validate the input fields (raising `ValueError` before
any filesystem mutation on failure), ensure the conference/team directory
and its CSV exist, build the new record with a fresh identifier, trimmed
name, lower-cased position and numeric statistics, append its stringified
form to the team's CSV and return it.  A required key missing from the
input raises `KeyError` after the directory and CSV have been ensured; the
inner `ValueError` branch is unreachable because validation already proved
the statistics convert. -/
def alta_jugador (fs : FS) (g : UuidGen) (base : Path)
    (conferencia equipo : String) (jugador : JugadorInput) : AltaOut :=
  if !validar_nombre (jugador.nombre.getD "") then
    ⟨.error "Nombre inválido.", fs, g⟩
  else if !validar_posicion (jugador.posicion.getD "") then
    ⟨.error "Posición inválida.", fs, g⟩
  else if !validar_estadistica (jugador.puntos.getD (.num 0)) then
    ⟨.error "Valor inválido en puntos", fs, g⟩
  else if !validar_estadistica (jugador.rebotes.getD (.num 0)) then
    ⟨.error "Valor inválido en rebotes", fs, g⟩
  else if !validar_estadistica (jugador.asistencias.getD (.num 0)) then
    ⟨.error "Valor inválido en asistencias", fs, g⟩
  else
    let dp := asegurar_directorio fs base [conferencia, equipo]
    let ic := inicializar_csv_si_necesario dp.1 dp.2
    match jugador.nombre, jugador.posicion,
          jugador.puntos, jugador.rebotes, jugador.asistencias with
    | some nom, some pos, some pt, some rb, some asi =>
        match pt.toFloat?, rb.toFloat?, asi.toFloat? with
        | some xp, some xr, some xa =>
            let fr := g.fresh
            let nuevo : Jugador :=
              ⟨fr.1, pyStrip nom, pyLower pos, xp, xr, xa⟩
            let jugadores := leer_csv ic.1 ic.2
            ⟨.ok nuevo, escribir_csv ic.1 ic.2 (jugadores ++ [nuevo.toRow]),
              fr.2⟩
        | _, _, _ => ⟨.error "ValueError", ic.1, g⟩
    | _, _, _, _, _ => ⟨.error (keyErrorMsg jugador), ic.1, g⟩

/-- The `cambios` mapping of `actualizar_jugador`; a `none` field is a key
absent from the dictionary.  An `id` key may be present but is never read
by the update. -/
structure Cambios where
  id : Option String := none
  nombre : Option String := none
  posicion : Option String := none
  puntos : Option String := none
  rebotes : Option String := none
  asistencias : Option String := none

/-- `fila.update({...})` in `actualizar_jugador`: each of the five
non-identifier fields takes the value from `cambios` when that key is
present and keeps its prior value otherwise; the identifier is not in the
updated key set. -/
def aplicarCambios (cambios : Cambios) (fila : Row) : Row :=
  { fila with
    nombre := cambios.nombre.getD fila.nombre
    posicion := cambios.posicion.getD fila.posicion
    puntos := cambios.puntos.getD fila.puntos
    rebotes := cambios.rebotes.getD fila.rebotes
    asistencias := cambios.asistencias.getD fila.asistencias }

/-- The inner row loop of `actualizar_jugador`: find the first row matching
the identifier, update it in place, and report the updated file contents
together with the updated row; `none` when no row matches. -/
def actualizarEnFila (jugador_id : String) (cambios : Cambios) :
    List Row → Option (List Row × Row)
  | [] => none
  | fila :: rest =>
      if fila.id = jugador_id then
        let fila' := aplicarCambios cambios fila
        some (fila' :: rest, fila')
      else
        match actualizarEnFila jugador_id cambios rest with
        | some (rest', fila') => some (fila :: rest', fila')
        | none => none

/-- The outer loop of `actualizar_jugador` over the flattened, origin-tagged
collection: on the first tagged record matching the identifier, re-load its
origin file fresh, update the matching row there, save the whole file back
and return the updated row; if the inner loop finds nothing the outer loop
continues; exhausting the collection raises `KeyError`. -/
def actualizarGo (fs : FS) (jugador_id : String) (cambios : Cambios) :
    List (Row × Path) → Except String Row × FS
  | [] => (.error "Jugador no encontrado.", fs)
  | (j, origen) :: rest =>
      if j.id = jugador_id then
        match actualizarEnFila jugador_id cambios (leer_csv fs origen) with
        | some (jugadores', fila') =>
            (.ok fila', escribir_csv fs origen jugadores')
        | none => actualizarGo fs jugador_id cambios rest
      else actualizarGo fs jugador_id cambios rest

/-- `actualizar_jugador`: walk the whole hierarchy, then update as described
in `actualizarGo`. -/
def actualizar_jugador (fs : FS) (base : Path) (jugador_id : String)
    (cambios : Cambios) : Except String Row × FS :=
  actualizarGo fs jugador_id cambios (leer_todos_los_jugadores fs base)

/-- The loop of `eliminar_jugador` over the flattened collection: on the
first tagged record matching the identifier, re-load its origin file,
filter out every row with that identifier, save the remainder back and
return true; return false when nothing matches. -/
def eliminarGo (fs : FS) (jugador_id : String) :
    List (Row × Path) → Bool × FS
  | [] => (false, fs)
  | (j, origen) :: rest =>
      if j.id = jugador_id then
        (true, escribir_csv fs origen
          ((leer_csv fs origen).filter (fun f => f.id ≠ jugador_id)))
      else eliminarGo fs jugador_id rest

/-- `eliminar_jugador`: walk the whole hierarchy, then delete as described
in `eliminarGo`. -/
def eliminar_jugador (fs : FS) (base : Path) (jugador_id : String) :
    Bool × FS :=
  eliminarGo fs jugador_id (leer_todos_los_jugadores fs base)

/-- Result of `estadisticas_globales`: `vacio` is the `{"total": 0}`
dictionary (count zero and no further fields); `datos` carries the total
count and the three arithmetic means. -/
inductive Stats where
  | vacio
  | datos (total : Nat)
      (promedio_puntos promedio_rebotes promedio_asistencias : ℚ)
deriving DecidableEq

/-- `estadisticas_globales`: zero count on an empty collection; otherwise
the count and the mean of each statistic, parsed from the stored text and
divided by the count.  `none` models the uncaught `ValueError` when some
stored text does not parse. -/
def estadisticas_globales (jugadores : List Row) : Option Stats :=
  if jugadores.length = 0 then some .vacio
  else
    match jugadores.mapM (fun j => parseFloat j.puntos),
          jugadores.mapM (fun j => parseFloat j.rebotes),
          jugadores.mapM (fun j => parseFloat j.asistencias) with
    | some puntos, some rebotes, some asistencias =>
        some (.datos jugadores.length
          (puntos.sum / (jugadores.length : ℚ))
          (rebotes.sum / (jugadores.length : ℚ))
          (asistencias.sum / (jugadores.length : ℚ)))
    | _, _, _ => none

/-- No directory sits at `p` (the path is free or holds a regular file);
when violated, `alta_jugador` in Python would raise `IsADirectoryError`
while writing the CSV. -/
def noDirAt (fs : FS) (p : Path) : Bool :=
  match fs.lookup p with
  | some e => !e.isDir
  | none => true

/-! ### Concrete fixtures used by the witness theorems -/

/-- A sample stored row. -/
def exRowA : Row := ⟨"a", "Ana", "base", "10", "5", "3"⟩

/-- A second sample stored row. -/
def exRowB : Row := ⟨"b", "Bob", "alero", "20", "6", "4"⟩

/-- A sample hierarchy: one conference, one team, one CSV with two rows. -/
def exFS : FS :=
  .consDir "este"
    (.consDir "lakers"
      (.consDir "players.csv" (.file [exRowA, exRowB]) .nilDir) .nilDir)
    .nilDir

/-- Two rows sharing one identifier (external tampering). -/
def dupRowA : Row := ⟨"x", "Ana", "base", "1", "2", "3"⟩

/-- Second row with the duplicated identifier. -/
def dupRowB : Row := ⟨"x", "Bob", "alero", "4", "5", "6"⟩

/-- A hierarchy whose single CSV holds two rows with the same identifier. -/
def dupFS : FS :=
  .consDir "este"
    (.consDir "alpha"
      (.consDir "players.csv" (.file [dupRowA, dupRowB]) .nilDir) .nilDir)
    .nilDir

/-- A fully valid creation input. -/
def exInput : JugadorInput :=
  ⟨some "  Ana ", some "BASE", some (.str "10"), some (.num 5),
    some (.str "3.5")⟩

/-- A creation input that is valid but lacks the puntos key. -/
def exInputMissing : JugadorInput :=
  ⟨some "Ana", some "base", none, some (.num 5), some (.num 3)⟩

/-- An update mapping that also (illegally) tries to change the id. -/
def exCambios : Cambios := ⟨some "HACK", none, none, some "25", none, none⟩

/-- Rows whose puntos column is 10, 20, 30. -/
def statRows : List Row :=
  [⟨"a", "A", "base", "10", "4", "1"⟩, ⟨"b", "B", "alero", "20", "5", "2"⟩,
    ⟨"c", "C", "pivot", "30", "6", "3"⟩]

/-! ### Infrastructure lemmas about the filesystem model -/

/-- Path resolution splits along concatenation. -/
theorem FS.lookup_append (fs : FS) (a b : Path) :
    fs.lookup (a ++ b) = (fs.lookup a).bind (fun d => d.lookup b) := by
  induction fs generalizing a with
  | file rows =>
      cases a with
      | nil => simp [FS.lookup]
      | cons n a' => simp [FS.lookup]
  | nilDir =>
      cases a with
      | nil => simp [FS.lookup]
      | cons n a' => simp [FS.lookup]
  | consDir m c rest ihc ihr =>
      cases a with
      | nil => simp [FS.lookup]
      | cons n a' =>
        by_cases h : m = n
        · simpa [FS.lookup, h] using ihc a'
        · simpa [FS.lookup, h] using ihr (n :: a')

/-- Only a non-empty directory can resolve a non-empty path. -/
theorem FS.lookup_cons_eq_some (d : FS) (n : String) (p : Path) (e : FS)
    (h : d.lookup (n :: p) = some e) :
    ∃ m c rest, d = FS.consDir m c rest := by
  cases d with
  | file rows => simp [FS.lookup] at h
  | nilDir => simp [FS.lookup] at h
  | consDir m c rest => exact ⟨m, c, rest, rfl⟩

/-- A resolvable first component is among the listed names. -/
theorem FS.lookup_head_mem (d : FS) (n : String) (p : Path) (e : FS)
    (h : d.lookup (n :: p) = some e) : n ∈ d.names := by
  induction d with
  | file rows => simp [FS.lookup] at h
  | nilDir => simp [FS.lookup] at h
  | consDir m c rest ihc ihr =>
      by_cases hm : m = n
      · simp [FS.names, hm]
      · simp [FS.lookup, hm] at h
        simpa [FS.names] using Or.inr (ihr h)

/-- Overwriting an existing file is visible at its path. -/
theorem FS.lookup_write_self (fs : FS) (p : Path) (rows old : List Row)
    (h : fs.lookup p = some (.file old)) :
    (fs.write p rows).lookup p = some (.file rows) := by
  induction fs generalizing p with
  | file f =>
      cases p with
      | nil => simp [FS.lookup, FS.write]
      | cons n p' => simp [FS.lookup] at h
  | nilDir =>
      cases p with
      | nil => simp [FS.lookup] at h
      | cons n p' => simp [FS.lookup] at h
  | consDir m c rest ihc ihr =>
      cases p with
      | nil => simp [FS.lookup] at h
      | cons n p' =>
        by_cases hm : m = n
        · simp [FS.lookup, hm] at h
          simpa [FS.write, FS.lookup, hm] using ihc p' h
        · simp [FS.lookup, hm] at h
          simpa [FS.write, FS.lookup, hm] using ihr (n :: p') h

/-- Overwriting an existing file changes the record list of no other
path. -/
theorem fileAt_write_ne (fs : FS) (p q : Path) (rows old : List Row)
    (h : fs.lookup p = some (.file old)) (hne : q ≠ p) :
    fileAt (fs.write p rows) q = fileAt fs q := by
  induction fs generalizing p q with
  | file f =>
      cases p with
      | nil =>
        simp only [FS.lookup] at h
        cases q with
        | nil => exact absurd rfl hne
        | cons k q' => simp [fileAt, FS.write, FS.lookup]
      | cons n p' => simp [FS.lookup] at h
  | nilDir =>
      cases p with
      | nil => simp [FS.lookup] at h
      | cons n p' => simp [FS.lookup] at h
  | consDir m c rest ihc ihr =>
      cases p with
      | nil => simp [FS.lookup] at h
      | cons n p' =>
        by_cases hm : m = n
        · subst hm
          simp only [FS.lookup, if_pos rfl] at h
          cases q with
          | nil => simp [fileAt, FS.write, FS.lookup]
          | cons k q' =>
            by_cases hk : m = k
            · subst hk
              have hq : q' ≠ p' := fun hq => hne (by rw [hq])
              simpa [fileAt, FS.write, FS.lookup] using ihc p' q' h hq
            · simp [fileAt, FS.write, FS.lookup, hk]
        · simp only [FS.lookup, if_neg hm] at h
          cases q with
          | nil => simp [fileAt, FS.write, FS.lookup, hm]
          | cons k q' =>
            by_cases hk : m = k
            · subst hk
              simp [fileAt, FS.write, FS.lookup, hm]
            · have := ihr (n :: p') (k :: q') h hne
              simpa [fileAt, FS.write, FS.lookup, hk, hm] using this

/-- Writing under an existing node is the corresponding write on the
subtree. -/
theorem FS.lookup_write_append (fs : FS) (b s : Path) (rows : List Row)
    (d : FS) (h : fs.lookup b = some d) :
    (fs.write (b ++ s) rows).lookup b = some (d.write s rows) := by
  induction fs generalizing b with
  | file f =>
      cases b with
      | nil =>
        simp only [FS.lookup, Option.some.injEq] at h
        subst h
        cases s with
        | nil => simp [FS.write, FS.lookup]
        | cons x s' => simp [FS.write, FS.lookup]
      | cons n b' => simp [FS.lookup] at h
  | nilDir =>
      cases b with
      | nil =>
        simp only [FS.lookup, Option.some.injEq] at h
        subst h
        cases s with
        | nil => simp [FS.write, FS.lookup]
        | cons x s' =>
          cases s' with
          | nil => simp [FS.write, FS.lookup]
          | cons y s'' => simp [FS.write, FS.lookup]
      | cons n b' => simp [FS.lookup] at h
  | consDir m c rest ihc ihr =>
      cases b with
      | nil =>
        simp only [FS.lookup, Option.some.injEq] at h
        subst h
        cases s with
        | nil => simp [FS.write, FS.lookup]
        | cons x s' =>
          by_cases hx : m = x
          · simp [FS.write, FS.lookup, hx]
          · simp [FS.write, FS.lookup, hx]
      | cons n b' =>
        by_cases hm : m = n
        · simp only [FS.lookup, if_pos hm] at h
          simpa [FS.write, FS.lookup, hm] using ihc b' h
        · simp only [FS.lookup, if_neg hm] at h
          simpa [FS.write, FS.lookup, hm] using ihr (n :: b') h

/-- Unpacked well-formedness of a non-empty directory listing. -/
theorem FS.wfB_consDir (n : String) (c rest : FS)
    (h : (FS.consDir n c rest).wfB = true) :
    n ∉ rest.names ∧ rest.isDir = true ∧ c.wfB = true ∧ rest.wfB = true := by
  simpa [FS.wfB, Bool.and_eq_true, decide_eq_true_eq, and_assoc] using h

/-- Creating a file in a well-formed directory that lacks it is visible at
its path. -/
theorem FS.lookup_write_new (d : FS) (f : String) (rows : List Row)
    (hwf : d.wfB = true) (hdir : d.isDir = true) (h : d.lookup [f] = none) :
    (d.write [f] rows).lookup [f] = some (.file rows) := by
  induction d with
  | file g => simp [FS.isDir] at hdir
  | nilDir => simp [FS.write, FS.lookup]
  | consDir m c rest ihc ihr =>
      obtain ⟨-, hrdir, -, hrwf⟩ := FS.wfB_consDir m c rest hwf
      by_cases hm : m = f
      · simp [FS.lookup, hm] at h
      · simp only [FS.lookup, if_neg hm] at h
        simpa [FS.write, FS.lookup, hm] using ihr hrwf hrdir h

/-- Names listed after a write: unchanged, or the created file's name
appended when it was absent. -/
theorem FS.names_write (d : FS) (n : String) (p : Path) (rows : List Row) :
    (d.write (n :: p) rows).names = d.names ∨
      ((d.write (n :: p) rows).names = d.names ++ [n] ∧ n ∉ d.names) := by
  induction d with
  | file f => exact Or.inl (by simp [FS.write])
  | nilDir =>
      cases p with
      | nil => exact Or.inr (by simp [FS.write, FS.names])
      | cons x p' => exact Or.inl (by simp [FS.write])
  | consDir m c rest ihc ihr =>
      by_cases hm : m = n
      · exact Or.inl (by simp [FS.write, hm, FS.names])
      · rcases ihr with h | ⟨h1, h2⟩
        · exact Or.inl (by simp [FS.write, hm, FS.names, h])
        · refine Or.inr ⟨by simp [FS.write, hm, FS.names, h1], ?_⟩
          simp only [FS.names, List.mem_cons]
          rintro (h | h)
          · exact hm h.symm
          · exact h2 h

/-- Writing along a non-empty path never turns a directory into a file or
vice versa. -/
theorem FS.isDir_write_cons (d : FS) (n : String) (p : Path)
    (rows : List Row) : (d.write (n :: p) rows).isDir = d.isDir := by
  cases d with
  | file f => simp [FS.write, FS.isDir]
  | nilDir =>
      cases p with
      | nil => simp [FS.write, FS.isDir]
      | cons x p' => simp [FS.write, FS.isDir]
  | consDir m c rest =>
      by_cases hm : m = n
      · simp [FS.write, hm, FS.isDir]
      · simp [FS.write, hm, FS.isDir]

/-- Writing preserves well-formedness of the tree. -/
theorem FS.wfB_write (fs : FS) (p : Path) (rows : List Row)
    (h : fs.wfB = true) : (fs.write p rows).wfB = true := by
  induction fs generalizing p with
  | file f =>
      cases p with
      | nil => simp [FS.write, FS.wfB]
      | cons n p' => simp [FS.write, FS.wfB]
  | nilDir =>
      cases p with
      | nil => simp [FS.write, FS.wfB]
      | cons n p' =>
        cases p' with
        | nil => simp [FS.write, FS.wfB, FS.names, FS.isDir]
        | cons x p'' => simp [FS.write, FS.wfB]
  | consDir m c rest ihc ihr =>
      obtain ⟨hmem, hrdir, hc, hrest⟩ := FS.wfB_consDir m c rest h
      cases p with
      | nil => simp [FS.write, FS.wfB]
      | cons n p' =>
        by_cases hm : m = n
        · subst hm
          simp [FS.write, FS.wfB, ihc p' hc, hrest, hrdir]
          exact hmem
        · have hdir' : (rest.write (n :: p') rows).isDir = true := by
            rw [FS.isDir_write_cons]; exact hrdir
          simp only [FS.write, if_neg hm, FS.wfB, Bool.and_eq_true,
            decide_eq_true_eq]
          refine ⟨⟨⟨?_, hdir'⟩, hc⟩, ihr (n :: p') hrest⟩
          rcases FS.names_write rest n p' rows with hn | ⟨hn, -⟩
          · rw [hn]; exact hmem
          · rw [hn]
            simp only [List.mem_append, List.mem_singleton]
            rintro (hx | hx)
            · exact hmem hx
            · exact hm hx

/-- The chain of fresh directories is well-formed. -/
theorem FS.wfB_mkChain (p : Path) : (FS.mkChain p).wfB = true := by
  induction p with
  | nil => simp [FS.mkChain, FS.wfB]
  | cons n p' ih => simp [FS.mkChain, FS.wfB, FS.names, FS.isDir, ih]

/-- The chain of fresh directories is a directory. -/
theorem FS.isDir_mkChain (p : Path) : (FS.mkChain p).isDir = true := by
  cases p with
  | nil => simp [FS.mkChain, FS.isDir]
  | cons n p' => simp [FS.mkChain, FS.isDir]

/-- Creating directories along a non-empty path never turns a directory
into a file or vice versa. -/
theorem FS.isDir_mkdirs_cons (d : FS) (n : String) (p : Path) :
    (d.mkdirs (n :: p)).isDir = d.isDir := by
  cases d with
  | file f => simp [FS.mkdirs, FS.isDir]
  | nilDir => simp [FS.mkdirs, FS.isDir]
  | consDir m c rest =>
      by_cases hm : m = n
      · simp [FS.mkdirs, hm, FS.isDir]
      · simp [FS.mkdirs, hm, FS.isDir]

/-- Names listed after creating directories: unchanged, or the created
directory's name appended when it was absent. -/
theorem FS.names_mkdirs (d : FS) (n : String) (p : Path) :
    (d.mkdirs (n :: p)).names = d.names ∨
      ((d.mkdirs (n :: p)).names = d.names ++ [n] ∧ n ∉ d.names) := by
  induction d with
  | file f => exact Or.inl (by simp [FS.mkdirs])
  | nilDir => exact Or.inr (by simp [FS.mkdirs, FS.names])
  | consDir m c rest ihc ihr =>
      by_cases hm : m = n
      · exact Or.inl (by simp [FS.mkdirs, hm, FS.names])
      · rcases ihr with h | ⟨h1, h2⟩
        · exact Or.inl (by simp [FS.mkdirs, hm, FS.names, h])
        · refine Or.inr ⟨by simp [FS.mkdirs, hm, FS.names, h1], ?_⟩
          simp only [FS.names, List.mem_cons]
          rintro (h | h)
          · exact hm h.symm
          · exact h2 h

/-- Creating directories preserves well-formedness of the tree. -/
theorem FS.wfB_mkdirs (fs : FS) (p : Path) (h : fs.wfB = true) :
    (fs.mkdirs p).wfB = true := by
  induction fs generalizing p with
  | file f =>
      cases p with
      | nil => exact h
      | cons n p' => exact h
  | nilDir =>
      cases p with
      | nil => simp [FS.mkdirs, FS.wfB]
      | cons n p' =>
        simp [FS.mkdirs, FS.wfB, FS.names, FS.isDir, FS.wfB_mkChain]
  | consDir m c rest ihc ihr =>
      obtain ⟨hmem, hrdir, hc, hrest⟩ := FS.wfB_consDir m c rest h
      cases p with
      | nil => simpa [FS.mkdirs] using h
      | cons n p' =>
        by_cases hm : m = n
        · subst hm
          simp [FS.mkdirs, FS.wfB, ihc p' hc, hrest, hrdir]
          exact hmem
        · have hdir' : (rest.mkdirs (n :: p')).isDir = true := by
            rw [FS.isDir_mkdirs_cons]; exact hrdir
          simp only [FS.mkdirs, if_neg hm, FS.wfB, Bool.and_eq_true,
            decide_eq_true_eq]
          refine ⟨⟨⟨?_, hdir'⟩, hc⟩, ihr (n :: p') hrest⟩
          rcases FS.names_mkdirs rest n p' with hn | ⟨hn, -⟩
          · rw [hn]; exact hmem
          · rw [hn]
            simp only [List.mem_append, List.mem_singleton]
            rintro (hx | hx)
            · exact hmem hx
            · exact hm hx

/-- Subtrees of a well-formed tree are well-formed. -/
theorem FS.wfB_lookup (fs : FS) (p : Path) (d : FS)
    (hwf : fs.wfB = true) (h : fs.lookup p = some d) : d.wfB = true := by
  induction fs generalizing p with
  | file f =>
      cases p with
      | nil => cases h; exact hwf
      | cons n p' => simp [FS.lookup] at h
  | nilDir =>
      cases p with
      | nil => cases h; exact hwf
      | cons n p' => simp [FS.lookup] at h
  | consDir m c rest ihc ihr =>
      obtain ⟨-, -, hc, hrest⟩ := FS.wfB_consDir m c rest hwf
      cases p with
      | nil => cases h; exact hwf
      | cons n p' =>
        by_cases hm : m = n
        · simp only [FS.lookup, if_pos hm] at h
          exact ihc p' hc h
        · simp only [FS.lookup, if_neg hm] at h
          exact ihr (n :: p') hrest h

/-- Skipping an entry whose name cannot start the path. -/
theorem FS.lookup_skip (n : String) (c rest : FS) (x : String) (t : Path)
    (e : FS) (hmem : n ∉ rest.names) (h : rest.lookup (x :: t) = some e) :
    (FS.consDir n c rest).lookup (x :: t) = some e := by
  have hx : x ∈ rest.names := FS.lookup_head_mem rest x t e h
  have hnx : ¬n = x := fun hnx => hmem (hnx ▸ hx)
  simpa [FS.lookup, hnx] using h

/-- `FS.lookup_skip` for a path given as a concatenation ending in a file
name. -/
theorem FS.lookup_skip_concat (n : String) (c rest : FS) (q : Path)
    (f : String) (e : FS) (hmem : n ∉ rest.names)
    (h : rest.lookup (q ++ [f]) = some e) :
    (FS.consDir n c rest).lookup (q ++ [f]) = some e := by
  cases q with
  | nil => exact FS.lookup_skip n c rest f [] e hmem h
  | cons x q' => exact FS.lookup_skip n c rest x (q' ++ [f]) e hmem h

/-- Unfolding the traversal over a non-empty listing. -/
theorem leerD_consDir (n : String) (c rest : FS) (base : Path) :
    leerD (FS.consDir n c rest) base =
      (match c with
       | .file rows =>
           if n = CSV_FILENAME then rows.map (fun r => (r, base ++ [n]))
           else []
       | _ => leerD c (base ++ [n])) ++ leerD rest base := by
  cases c <;> simp [leerD]

/-- Unfolding the traversal over a listing whose first entry is a
directory. -/
theorem leerD_consDir_dir (n : String) (c rest : FS) (base : Path)
    (hc : c.isDir = true) :
    leerD (FS.consDir n c rest) base =
      leerD c (base ++ [n]) ++ leerD rest base := by
  cases c with
  | file rows => simp [FS.isDir] at hc
  | nilDir => simp [leerD]
  | consDir a b r => simp [leerD]

/-- Soundness of the traversal: every tagged record it returns is a record
of a `players.csv` file under the traversal root, tagged with the full path
of that file. -/
theorem leerD_sound (d : FS) (base : Path) (r : Row) (p : Path)
    (hwf : d.wfB = true) (h : (r, p) ∈ leerD d base) :
    ∃ q rows, p = base ++ q ++ [CSV_FILENAME] ∧
      d.lookup (q ++ [CSV_FILENAME]) = some (.file rows) ∧ r ∈ rows := by
  induction d generalizing base with
  | file rows => simp [leerD] at h
  | nilDir => simp [leerD] at h
  | consDir n c rest ihc ihr =>
      obtain ⟨hmem, hrdir, hcwf, hrwf⟩ := FS.wfB_consDir n c rest hwf
      cases c with
      | file rows0 =>
          rw [leerD_consDir] at h
          rcases List.mem_append.mp h with hl | hr
          · by_cases hn : n = CSV_FILENAME
            · simp only [if_pos hn, List.mem_map] at hl
              obtain ⟨r', hr', hEq⟩ := hl
              obtain ⟨rfl, rfl⟩ := Prod.mk.injEq .. ▸ hEq
              refine ⟨[], rows0, by simp [hn], ?_, hr'⟩
              simp [FS.lookup, hn]
            · simp [if_neg hn] at hl
          · obtain ⟨q, rows, hp, hlk, hrw⟩ := ihr base hrwf hr
            exact ⟨q, rows, hp,
              FS.lookup_skip_concat n _ rest q _ _ hmem hlk, hrw⟩
      | nilDir =>
          rw [leerD_consDir_dir n _ rest base (by simp [FS.isDir])] at h
          rcases List.mem_append.mp h with hl | hr
          · simp [leerD] at hl
          · obtain ⟨q, rows, hp, hlk, hrw⟩ := ihr base hrwf hr
            exact ⟨q, rows, hp,
              FS.lookup_skip_concat n _ rest q _ _ hmem hlk, hrw⟩
      | consDir a b r2 =>
          rw [leerD_consDir_dir n _ rest base (by simp [FS.isDir])] at h
          rcases List.mem_append.mp h with hl | hr
          · obtain ⟨q, rows, hp, hlk, hrw⟩ := ihc (base ++ [n]) hcwf hl
            refine ⟨n :: q, rows, by simp [hp], ?_, hrw⟩
            simpa [FS.lookup] using hlk
          · obtain ⟨q, rows, hp, hlk, hrw⟩ := ihr base hrwf hr
            exact ⟨q, rows, hp,
              FS.lookup_skip_concat n _ rest q _ _ hmem hlk, hrw⟩

/-- Tagging a record list with one origin path preserves counts. -/
theorem count_map_pair (l : List Row) (P : Path) (r : Row) :
    (l.map (fun x => (x, P))).count (r, P) = l.count r := by
  induction l with
  | nil => simp
  | cons a t ih =>
      by_cases ha : a = r
      · simp [List.count_cons, ha, ih]
      · simp [List.count_cons, ha, ih]

/-- Two paths below the same base ending in the same file name coincide only
when their middle segments do. -/
theorem path_cancel (base q q' : Path) (f : String)
    (h : base ++ q ++ [f] = base ++ q' ++ [f]) : q = q' := by
  rw [List.append_assoc, List.append_assoc] at h
  have h2 : q ++ [f] = q' ++ [f] := List.append_cancel_left h
  exact List.append_cancel_right h2

/-- `path_cancel` with the left base extended by one component. -/
theorem path_cancel_cons (base : Path) (n : String) (q₂ q3 : Path)
    (f : String) (h : (base ++ [n]) ++ q₂ ++ [f] = base ++ q3 ++ [f]) :
    n :: q₂ = q3 := by
  apply path_cancel base (n :: q₂) q3 f
  rw [← h]
  simp [List.append_assoc]

/-- Counting: the multiplicity of an origin-tagged record in the traversal
output equals its multiplicity in the file the tag points at. -/
theorem leerD_count (d : FS) (base q : Path) (rows : List Row) (r : Row)
    (hwf : d.wfB = true)
    (h : d.lookup (q ++ [CSV_FILENAME]) = some (.file rows)) :
    (leerD d base).count (r, base ++ q ++ [CSV_FILENAME]) = rows.count r := by
  induction d generalizing base q with
  | file rows0 => cases q <;> simp [FS.lookup] at h
  | nilDir => cases q <;> simp [FS.lookup] at h
  | consDir n c rest ihc ihr =>
      obtain ⟨hmem, hrdir, hcwf, hrwf⟩ := FS.wfB_consDir n c rest hwf
      cases q with
      | nil =>
        by_cases hn : n = CSV_FILENAME
        · simp only [List.nil_append, FS.lookup, if_pos hn,
            Option.some.injEq] at h
          subst h
          rw [leerD_consDir]
          have hrz :
              (r, base ++ [] ++ [CSV_FILENAME]) ∉ leerD rest base := by
            intro hmm
            obtain ⟨q₂, rows₂, hp, hlk, -⟩ :=
              leerD_sound rest base r _ hrwf hmm
            have hq₂ : ([] : Path) = q₂ := path_cancel base [] q₂ _ hp
            subst hq₂
            have : CSV_FILENAME ∈ rest.names :=
              FS.lookup_head_mem rest _ [] _ (by simpa using hlk)
            exact hmem (hn ▸ this)
          rw [List.count_append, List.count_eq_zero.mpr hrz]
          simp [hn, count_map_pair]
        · simp only [List.nil_append, FS.lookup, if_neg hn] at h
          rw [leerD_consDir, List.count_append]
          have hz :
              (match c with
               | .file rows =>
                   if n = CSV_FILENAME then
                     rows.map (fun r => (r, base ++ [n]))
                   else []
               | _ => leerD c (base ++ [n])).count
                (r, base ++ [] ++ [CSV_FILENAME]) = 0 := by
            cases c with
            | file rows0 => simp [hn]
            | nilDir => simp [leerD]
            | consDir a b r2 =>
                refine List.count_eq_zero.mpr ?_
                intro hmm
                obtain ⟨q₂, rows₂, hp, -, -⟩ :=
                  leerD_sound _ _ r _ hcwf hmm
                have hlen := congrArg List.length hp
                simp [List.length_append] at hlen
          rw [hz, Nat.zero_add]
          exact ihr base [] hrwf (by simpa using h)
      | cons x q' =>
        by_cases hn : n = x
        · subst hn
          simp only [List.cons_append, FS.lookup, if_pos rfl] at h
          cases c with
          | file rows0 => cases q' <;> simp [FS.lookup] at h
          | nilDir => cases q' <;> simp [FS.lookup] at h
          | consDir a b r2 =>
              rw [leerD_consDir_dir n _ rest base (by simp [FS.isDir]),
                List.count_append]
              have hpath :
                  base ++ (n :: q') ++ [CSV_FILENAME] =
                    (base ++ [n]) ++ q' ++ [CSV_FILENAME] := by simp
              rw [hpath]
              have hrz :
                  (r, (base ++ [n]) ++ q' ++ [CSV_FILENAME])
                    ∉ leerD rest base := by
                intro hmm
                obtain ⟨q₂, rows₂, hp, hlk, -⟩ :=
                  leerD_sound rest base r _ hrwf hmm
                have hq₂ : n :: q' = q₂ := path_cancel_cons base n q' q₂ _ hp
                subst hq₂
                exact hmem (FS.lookup_head_mem rest _ _ _ hlk)
              rw [List.count_eq_zero.mpr hrz, Nat.add_zero]
              exact ihc (base ++ [n]) q' hcwf h
        · simp only [List.cons_append, FS.lookup, if_neg hn] at h
          rw [leerD_consDir, List.count_append]
          have hz :
              (match c with
               | .file rows =>
                   if n = CSV_FILENAME then
                     rows.map (fun r => (r, base ++ [n]))
                   else []
               | _ => leerD c (base ++ [n])).count
                (r, base ++ (x :: q') ++ [CSV_FILENAME]) = 0 := by
            cases c with
            | file rows0 =>
                by_cases hcn : n = CSV_FILENAME
                · refine List.count_eq_zero.mpr ?_
                  intro hmm
                  simp only [if_pos hcn, List.mem_map] at hmm
                  obtain ⟨r', -, hEq⟩ := hmm
                  have hp : base ++ [n] =
                      base ++ (x :: q') ++ [CSV_FILENAME] :=
                    congrArg Prod.snd hEq
                  have hlen := congrArg List.length hp
                  simp [List.length_append] at hlen
                · simp [hcn]
            | nilDir => simp [leerD]
            | consDir a b r2 =>
                refine List.count_eq_zero.mpr ?_
                intro hmm
                obtain ⟨q₂, rows₂, hp, -, -⟩ :=
                  leerD_sound _ _ r _ hcwf hmm
                have hq₂ : n :: q₂ = x :: q' :=
                  path_cancel_cons base n q₂ (x :: q') _ hp.symm
                exact hn (List.cons.injEq .. ▸ hq₂).1
          rw [hz, Nat.zero_add]
          exact ihr base (x :: q') hrwf h

/-- Completeness of the traversal: every record of a resolvable
`players.csv` file under the root appears in the traversal output with its
origin tag. -/
theorem leerD_complete (d : FS) (base q : Path) (rows : List Row) (r : Row)
    (hwf : d.wfB = true)
    (h : d.lookup (q ++ [CSV_FILENAME]) = some (.file rows))
    (hr : r ∈ rows) :
    (r, base ++ q ++ [CSV_FILENAME]) ∈ leerD d base := by
  have hc := leerD_count d base q rows r hwf h
  have hpos : 0 < (leerD d base).count (r, base ++ q ++ [CSV_FILENAME]) := by
    rw [hc]
    exact List.count_pos_iff.mpr hr
  exact List.count_pos_iff.mp hpos

/-- Reading the records of a path is reading the file there, when any. -/
theorem leer_csv_eq_fileAt (fs : FS) (p : Path) :
    leer_csv fs p = (fileAt fs p).getD [] := by
  unfold leer_csv fileAt
  cases fs.lookup p with
  | none => rfl
  | some e => cases e <;> rfl

/-- Reading a resolvable file gives its records. -/
theorem leer_csv_of_lookup (fs : FS) (p : Path) (rows : List Row)
    (h : fs.lookup p = some (.file rows)) : leer_csv fs p = rows := by
  simp [leer_csv, h]

/-- A non-empty read means the path resolves to a file holding exactly the
read records. -/
theorem lookup_of_leer_csv_ne_nil (fs : FS) (p : Path)
    (h : leer_csv fs p ≠ []) :
    fs.lookup p = some (.file (leer_csv fs p)) := by
  cases hl : fs.lookup p with
  | none => simp [leer_csv, hl] at h
  | some e =>
      cases e with
      | file rows => simp [leer_csv, hl]
      | nilDir => simp [leer_csv, hl] at h
      | consDir a b r => simp [leer_csv, hl] at h

/-- Overwriting an existing file changes no other file's records. -/
theorem leer_csv_write_ne (fs : FS) (p q : Path) (rows old : List Row)
    (h : fs.lookup p = some (.file old)) (hne : q ≠ p) :
    leer_csv (fs.write p rows) q = leer_csv fs q := by
  rw [leer_csv_eq_fileAt, leer_csv_eq_fileAt,
    fileAt_write_ne fs p q rows old h hne]

/-- Writing at an existing file shifts the traversal's total record count by
the difference between the new and old record lists. -/
theorem leerD_length_write (d : FS) (base q : Path) (rows' old : List Row)
    (h : d.lookup (q ++ [CSV_FILENAME]) = some (.file old)) :
    (leerD (d.write (q ++ [CSV_FILENAME]) rows') base).length + old.length =
      (leerD d base).length + rows'.length := by
  induction d generalizing base q with
  | file rows0 => cases q <;> simp [FS.lookup] at h
  | nilDir => cases q <;> simp [FS.lookup] at h
  | consDir n c rest ihc ihr =>
      cases q with
      | nil =>
        by_cases hn : n = CSV_FILENAME
        · simp only [List.nil_append, FS.lookup, if_pos hn,
            Option.some.injEq] at h
          subst h
          rw [List.nil_append]
          have hw : (FS.consDir n (.file old) rest).write [CSV_FILENAME] rows'
              = .consDir n (.file rows') rest := by
            simp [FS.write, hn]
          rw [hw, leerD_consDir, leerD_consDir]
          simp [hn, List.length_append, List.length_map]
          omega
        · simp only [List.nil_append, FS.lookup, if_neg hn] at h
          rw [List.nil_append]
          have hw : (FS.consDir n c rest).write [CSV_FILENAME] rows'
              = .consDir n c (rest.write [CSV_FILENAME] rows') := by
            simp [FS.write, hn]
          rw [hw, leerD_consDir, leerD_consDir]
          have hih := ihr base [] h
          simp only [List.nil_append] at hih
          simp only [List.length_append]
          omega
      | cons x q' =>
        by_cases hn : n = x
        · subst hn
          simp only [List.cons_append, FS.lookup, if_pos rfl] at h
          cases c with
          | file rows0 => cases q' <;> simp [FS.lookup] at h
          | nilDir => cases q' <;> simp [FS.lookup] at h
          | consDir a b r2 =>
              have hw : (FS.consDir n (FS.consDir a b r2) rest).write
                    ((n :: q') ++ [CSV_FILENAME]) rows'
                  = .consDir n
                      ((FS.consDir a b r2).write (q' ++ [CSV_FILENAME]) rows')
                      rest := by
                simp [FS.write]
              rw [hw]
              have hdirW :
                  ((FS.consDir a b r2).write (q' ++ [CSV_FILENAME])
                     rows').isDir = true := by
                obtain ⟨y, t, hyt⟩ :
                    ∃ y t, q' ++ [CSV_FILENAME] = y :: t := by
                  cases q' with
                  | nil => exact ⟨CSV_FILENAME, [], rfl⟩
                  | cons z q'' => exact ⟨z, q'' ++ [CSV_FILENAME], rfl⟩
                rw [hyt, FS.isDir_write_cons]
                simp [FS.isDir]
              rw [leerD_consDir_dir n _ rest base hdirW,
                leerD_consDir_dir n _ rest base (by simp [FS.isDir])]
              have hih := ihc (base ++ [n]) q' h
              simp only [List.length_append]
              omega
        · simp only [List.cons_append, FS.lookup, if_neg hn] at h
          have hw : (FS.consDir n c rest).write ((x :: q') ++ [CSV_FILENAME])
                rows'
              = .consDir n c (rest.write ((x :: q') ++ [CSV_FILENAME])
                  rows') := by
            simp [FS.write, hn]
          rw [hw, leerD_consDir, leerD_consDir]
          have hih := ihr base (x :: q') h
          simp only [List.cons_append] at hih ⊢
          simp only [List.length_append]
          omega

/-- Freshly created directory chains contain no records. -/
theorem leerD_mkChain (p base : Path) : leerD (FS.mkChain p) base = [] := by
  induction p generalizing base with
  | nil => simp [FS.mkChain, leerD]
  | cons n p' ih =>
      rw [FS.mkChain, leerD_consDir_dir n _ _ base (FS.isDir_mkChain p')]
      simp [ih, leerD]

/-- Creating directories never changes a node between file and directory. -/
theorem FS.isDir_mkdirs (d : FS) (p : Path) :
    (d.mkdirs p).isDir = d.isDir := by
  cases p with
  | nil => cases d <;> rfl
  | cons n p' => exact FS.isDir_mkdirs_cons d n p'

/-- Creating directories adds no records to the traversal. -/
theorem leerD_mkdirs (d : FS) (p base : Path) :
    leerD (d.mkdirs p) base = leerD d base := by
  induction d generalizing p base with
  | file f => cases p <;> simp [FS.mkdirs]
  | nilDir =>
      cases p with
      | nil => rfl
      | cons n p' =>
          rw [show FS.mkdirs .nilDir (n :: p')
              = .consDir n (FS.mkChain p') .nilDir from rfl,
            leerD_consDir_dir n _ _ base (FS.isDir_mkChain p')]
          simp [leerD_mkChain, leerD]
  | consDir m c rest ihc ihr =>
      cases p with
      | nil => rfl
      | cons n p' =>
        by_cases hm : m = n
        · subst hm
          rw [show (FS.consDir m c rest).mkdirs (m :: p')
              = .consDir m (c.mkdirs p') rest from by simp [FS.mkdirs]]
          cases c with
          | file f =>
              rw [show (FS.file f).mkdirs p' = .file f from by
                cases p' <;> simp [FS.mkdirs]]
          | nilDir =>
              rw [leerD_consDir_dir m _ rest base
                  (by rw [FS.isDir_mkdirs]; simp [FS.isDir]),
                leerD_consDir_dir m _ rest base (by simp [FS.isDir]),
                ihc p' (base ++ [m])]
          | consDir a b r2 =>
              rw [leerD_consDir_dir m _ rest base
                  (by rw [FS.isDir_mkdirs]; simp [FS.isDir]),
                leerD_consDir_dir m _ rest base (by simp [FS.isDir]),
                ihc p' (base ++ [m])]
        · rw [show (FS.consDir m c rest).mkdirs (n :: p')
              = .consDir m c (rest.mkdirs (n :: p')) from by
                simp [FS.mkdirs, hm],
            leerD_consDir, leerD_consDir, ihr (n :: p') base]

/-- Creating an empty file adds no records to the traversal. -/
theorem leerD_write_empty (d : FS) (s base : Path)
    (h : d.lookup s = none) :
    leerD (d.write s []) base = leerD d base := by
  induction d generalizing s base with
  | file f =>
      cases s with
      | nil => simp [FS.lookup] at h
      | cons y s' => simp [FS.write]
  | nilDir =>
      cases s with
      | nil => simp [FS.lookup] at h
      | cons y s' =>
        cases s' with
        | nil => simp [FS.write, leerD]
        | cons z s'' => simp [FS.write]
  | consDir m c rest ihc ihr =>
      cases s with
      | nil => simp [FS.lookup] at h
      | cons y s' =>
        by_cases hm : m = y
        · subst hm
          simp only [FS.lookup, if_pos rfl] at h
          cases s' with
          | nil => simp [FS.lookup] at h
          | cons z s'' =>
            rw [show (FS.consDir m c rest).write (m :: z :: s'') []
                = .consDir m (c.write (z :: s'') []) rest from by
                  simp [FS.write]]
            cases c with
            | file f =>
                rw [show (FS.file f).write (z :: s'') [] = .file f from by
                  simp [FS.write]]
            | nilDir =>
                rw [leerD_consDir_dir m _ rest base
                    (by rw [FS.isDir_write_cons]; simp [FS.isDir]),
                  leerD_consDir_dir m _ rest base (by simp [FS.isDir]),
                  ihc (z :: s'') (base ++ [m]) h]
            | consDir a b r2 =>
                rw [leerD_consDir_dir m _ rest base
                    (by rw [FS.isDir_write_cons]; simp [FS.isDir]),
                  leerD_consDir_dir m _ rest base (by simp [FS.isDir]),
                  ihc (z :: s'') (base ++ [m]) h]
        · simp only [FS.lookup, if_neg hm] at h
          rw [show (FS.consDir m c rest).write (y :: s') []
              = .consDir m c (rest.write (y :: s') []) from by
                simp [FS.write, hm],
            leerD_consDir, leerD_consDir, ihr (y :: s') base h]

/-- Path resolution inside a fresh directory chain. -/
theorem FS.mkChain_lookup (x y : Path) :
    (FS.mkChain (x ++ y)).lookup x = some (FS.mkChain y) := by
  induction x with
  | nil => simp [FS.lookup]
  | cons n x' ih => simpa [FS.mkChain, FS.lookup] using ih

/-- A fresh directory chain contains nothing beyond its own spine. -/
theorem FS.mkChain_lookup_deeper (q : Path) (f : String) (s : Path) :
    (FS.mkChain q).lookup (q ++ f :: s) = none := by
  induction q with
  | nil => simp [FS.mkChain, FS.lookup]
  | cons n q' ih => simpa [FS.mkChain, FS.lookup] using ih

/-- Creating directories below an existing node acts on its subtree. -/
theorem FS.lookup_mkdirs_append (fs : FS) (b parts : Path) (d : FS)
    (h : fs.lookup b = some d) :
    (fs.mkdirs (b ++ parts)).lookup b = some (d.mkdirs parts) := by
  induction fs generalizing b with
  | file f =>
      cases b with
      | nil => cases h; simp [FS.lookup]
      | cons n b' => simp [FS.lookup] at h
  | nilDir =>
      cases b with
      | nil => cases h; simp [FS.lookup]
      | cons n b' => simp [FS.lookup] at h
  | consDir m c rest ihc ihr =>
      cases b with
      | nil => cases h; simp [FS.lookup]
      | cons n b' =>
        by_cases hm : m = n
        · subst hm
          simp only [FS.lookup, if_pos rfl] at h
          rw [show (FS.consDir m c rest).mkdirs ((m :: b') ++ parts)
              = .consDir m (c.mkdirs (b' ++ parts)) rest from by
                simp [FS.mkdirs]]
          simpa [FS.lookup] using ihc b' h
        · simp only [FS.lookup, if_neg hm] at h
          rw [show (FS.consDir m c rest).mkdirs ((n :: b') ++ parts)
              = .consDir m c (rest.mkdirs ((n :: b') ++ parts)) from by
                simp [FS.mkdirs, hm]]
          simpa [FS.lookup, hm] using ihr (n :: b') h

/-- Creating directories over a missing base creates the fresh chain
there. -/
theorem FS.lookup_mkdirs_new (fs : FS) (b parts : Path)
    (hnone : fs.lookup b = none) (hcan : fs.canMkdirs (b ++ parts) = true) :
    (fs.mkdirs (b ++ parts)).lookup b = some (FS.mkChain parts) := by
  induction fs generalizing b with
  | file f =>
      cases b with
      | nil => simp [FS.lookup] at hnone
      | cons n b' => simp [FS.canMkdirs] at hcan
  | nilDir =>
      cases b with
      | nil => simp [FS.lookup] at hnone
      | cons n b' =>
        rw [show FS.mkdirs .nilDir ((n :: b') ++ parts)
            = .consDir n (FS.mkChain (b' ++ parts)) .nilDir from by
              simp [FS.mkdirs]]
        simpa [FS.lookup] using FS.mkChain_lookup b' parts
  | consDir m c rest ihc ihr =>
      cases b with
      | nil => simp [FS.lookup] at hnone
      | cons n b' =>
        by_cases hm : m = n
        · subst hm
          simp only [FS.lookup, if_pos rfl] at hnone
          simp only [List.cons_append, FS.canMkdirs, if_pos rfl] at hcan
          rw [show (FS.consDir m c rest).mkdirs ((m :: b') ++ parts)
              = .consDir m (c.mkdirs (b' ++ parts)) rest from by
                simp [FS.mkdirs]]
          simpa [FS.lookup] using ihc b' hnone hcan
        · simp only [FS.lookup, if_neg hm] at hnone
          simp only [List.cons_append, FS.canMkdirs, if_neg hm] at hcan
          rw [show (FS.consDir m c rest).mkdirs ((n :: b') ++ parts)
              = .consDir m c (rest.mkdirs ((n :: b') ++ parts)) from by
                simp [FS.mkdirs, hm]]
          simpa [FS.lookup, hm] using ihr (n :: b') hnone hcan

/-- Creating directories changes nothing strictly below the created path. -/
theorem FS.lookup_mkdirs_deeper (fs : FS) (p : Path) (f : String) (s : Path)
    (hcan : fs.canMkdirs p = true) :
    (fs.mkdirs p).lookup (p ++ f :: s) = fs.lookup (p ++ f :: s) := by
  induction fs generalizing p with
  | file g =>
      cases p with
      | nil => rfl
      | cons n p' => simp [FS.canMkdirs] at hcan
  | nilDir =>
      cases p with
      | nil => rfl
      | cons n p' =>
        rw [show FS.mkdirs .nilDir (n :: p')
            = .consDir n (FS.mkChain p') .nilDir from rfl]
        simp [FS.lookup, FS.mkChain_lookup_deeper]
  | consDir m c rest ihc ihr =>
      cases p with
      | nil => rfl
      | cons n p' =>
        by_cases hm : m = n
        · subst hm
          simp only [FS.canMkdirs, if_pos rfl] at hcan
          rw [show (FS.consDir m c rest).mkdirs (m :: p')
              = .consDir m (c.mkdirs p') rest from by simp [FS.mkdirs]]
          simpa [FS.lookup] using ihc p' hcan
        · simp only [FS.canMkdirs, if_neg hm] at hcan
          rw [show (FS.consDir m c rest).mkdirs (n :: p')
              = .consDir m c (rest.mkdirs (n :: p')) from by
                simp [FS.mkdirs, hm]]
          simpa [FS.lookup, hm] using ihr (n :: p') hcan

/-- Whatever `os.makedirs` would succeed on resolves to a directory when it
already exists. -/
theorem FS.canMkdirs_isDir (fs : FS) (p : Path) (d : FS)
    (hcan : fs.canMkdirs p = true) (h : fs.lookup p = some d) :
    d.isDir = true := by
  induction fs generalizing p with
  | file f =>
      cases p with
      | nil => simp [FS.canMkdirs] at hcan
      | cons n p' => simp [FS.canMkdirs] at hcan
  | nilDir =>
      cases p with
      | nil => cases h; simp [FS.isDir]
      | cons n p' => simp [FS.lookup] at h
  | consDir m c rest ihc ihr =>
      cases p with
      | nil => cases h; simp [FS.isDir]
      | cons n p' =>
        by_cases hm : m = n
        · subst hm
          simp only [FS.canMkdirs, if_pos rfl] at hcan
          simp only [FS.lookup, if_pos rfl] at h
          exact ihc p' hcan h
        · simp only [FS.canMkdirs, if_neg hm] at hcan
          simp only [FS.lookup, if_neg hm] at h
          exact ihr (n :: p') hcan h

/-- `canMkdirs` of a concatenation restricts to the subtree at the front
segment. -/
theorem FS.canMkdirs_append (fs : FS) (x y : Path) (d : FS)
    (hcan : fs.canMkdirs (x ++ y) = true) (h : fs.lookup x = some d) :
    d.canMkdirs y = true := by
  induction fs generalizing x with
  | file f =>
      cases x with
      | nil => cases h; simpa using hcan
      | cons n x' => simp [FS.canMkdirs] at hcan
  | nilDir =>
      cases x with
      | nil => cases h; simpa using hcan
      | cons n x' => simp [FS.lookup] at h
  | consDir m c rest ihc ihr =>
      cases x with
      | nil => cases h; simpa using hcan
      | cons n x' =>
        by_cases hm : m = n
        · subst hm
          simp only [List.cons_append, FS.canMkdirs, if_pos rfl] at hcan
          simp only [FS.lookup, if_pos rfl] at h
          exact ihc x' hcan h
        · simp only [List.cons_append, FS.canMkdirs, if_neg hm] at hcan
          simp only [FS.lookup, if_neg hm] at h
          exact ihr (n :: x') hcan h

/-- The projection defining `fileAt`, as an equivalence. -/
theorem fileAt_eq_some_iff (fs : FS) (p : Path) (rows : List Row) :
    fileAt fs p = some rows ↔ fs.lookup p = some (.file rows) := by
  unfold fileAt
  cases h : fs.lookup p with
  | none => simp
  | some e => cases e <;> simp

/-- Soundness of the full walk: every returned tagged record is a record of
a resolvable `players.csv` file strictly under the root, tagged with that
file's path. -/
theorem leer_todos_sound (fs : FS) (base : Path) (r : Row) (p : Path)
    (hwf : fs.wfB = true) (h : (r, p) ∈ leer_todos_los_jugadores fs base) :
    ∃ q rows, p = base ++ q ++ [CSV_FILENAME] ∧
      fs.lookup p = some (.file rows) ∧ r ∈ rows := by
  cases hl : fs.lookup base with
  | none => simp only [leer_todos_los_jugadores, hl] at h; simp at h
  | some d =>
      cases d with
      | file rows =>
          simp only [leer_todos_los_jugadores, hl] at h
          simp at h
      | nilDir =>
          simp only [leer_todos_los_jugadores, hl] at h
          simp [leerD] at h
      | consDir a b r2 =>
          simp only [leer_todos_los_jugadores, hl] at h
          obtain ⟨q, rows, hp, hlk, hr⟩ :=
            leerD_sound _ base r p (FS.wfB_lookup fs base _ hwf hl) h
          refine ⟨q, rows, hp, ?_, hr⟩
          rw [hp, List.append_assoc, FS.lookup_append, hl]
          simpa using hlk

/-- Completeness of the full walk: every record of a resolvable
`players.csv` file strictly under the root is returned, tagged with that
file's path. -/
theorem leer_todos_complete (fs : FS) (base q : Path) (rows : List Row)
    (r : Row) (hwf : fs.wfB = true)
    (h : fs.lookup (base ++ q ++ [CSV_FILENAME]) = some (.file rows))
    (hr : r ∈ rows) :
    (r, base ++ q ++ [CSV_FILENAME]) ∈ leer_todos_los_jugadores fs base := by
  rw [List.append_assoc, FS.lookup_append] at h
  cases hl : fs.lookup base with
  | none => rw [hl] at h; simp at h
  | some d =>
      rw [hl] at h
      simp only [Option.some_bind] at h
      cases d with
      | file rows2 => cases q <;> simp [FS.lookup] at h
      | nilDir => cases q <;> simp [FS.lookup] at h
      | consDir a b r2 =>
          unfold leer_todos_los_jugadores
          rw [hl]
          exact leerD_complete _ base q rows r
            (FS.wfB_lookup fs base _ hwf hl) h hr

/-- Multiplicity version of the walk characterization. -/
theorem leer_todos_count (fs : FS) (base q : Path) (rows : List Row)
    (r : Row) (hwf : fs.wfB = true)
    (h : fs.lookup (base ++ q ++ [CSV_FILENAME]) = some (.file rows)) :
    (leer_todos_los_jugadores fs base).count
        (r, base ++ q ++ [CSV_FILENAME]) = rows.count r := by
  rw [List.append_assoc, FS.lookup_append] at h
  cases hl : fs.lookup base with
  | none => rw [hl] at h; simp at h
  | some d =>
      rw [hl] at h
      simp only [Option.some_bind] at h
      cases d with
      | file rows2 => cases q <;> simp [FS.lookup] at h
      | nilDir => cases q <;> simp [FS.lookup] at h
      | consDir a b r2 =>
          unfold leer_todos_los_jugadores
          rw [hl]
          exact leerD_count _ base q rows r
            (FS.wfB_lookup fs base _ hwf hl) h

/-- A successful `find?` splits its list at the first hit. -/
theorem find_first_decomp {α : Type} (l : List α) (p : α → Bool) (y : α)
    (h : l.find? p = some y) :
    ∃ pre post, l = pre ++ y :: post ∧ (∀ x ∈ pre, p x = false) ∧
      p y = true := by
  induction l with
  | nil => simp at h
  | cons a t ih =>
      by_cases ha : p a = true
      · rw [List.find?_cons_of_pos _ ha] at h
        cases h
        exact ⟨[], t, rfl, by simp, ha⟩
      · rw [List.find?_cons_of_neg _ (by simpa using ha)] at h
        obtain ⟨pre, post, hl2, hpre, hy⟩ := ih h
        refine ⟨a :: pre, post, by simp [hl2], ?_, hy⟩
        intro x hx
        rcases List.mem_cons.mp hx with rfl | hx
        · simpa using ha
        · exact hpre x hx

/-- The inner row loop misses when no row matches. -/
theorem actualizarEnFila_none (jid : String) (cambios : Cambios)
    (l : List Row) (h : ∀ x ∈ l, x.id ≠ jid) :
    actualizarEnFila jid cambios l = none := by
  induction l with
  | nil => rfl
  | cons a t ih =>
      have ha : ¬a.id = jid := h a (by simp)
      have ih' := ih (fun x hx => h x (by simp [hx]))
      simp only [actualizarEnFila, if_neg ha, ih']

/-- The inner row loop updates exactly the first matching row. -/
theorem actualizarEnFila_first (jid : String) (cambios : Cambios)
    (ua : List Row) (fila : Row) (ub : List Row)
    (hpre : ∀ x ∈ ua, x.id ≠ jid) (hfila : fila.id = jid) :
    actualizarEnFila jid cambios (ua ++ fila :: ub) =
      some (ua ++ aplicarCambios cambios fila :: ub,
        aplicarCambios cambios fila) := by
  induction ua with
  | nil => simp [actualizarEnFila, hfila]
  | cons a t ih =>
      have ha : ¬a.id = jid := hpre a (by simp)
      have ih' := ih (fun x hx => hpre x (by simp [hx]))
      simp only [List.cons_append, actualizarEnFila, List.append_eq,
        if_neg ha, ih']

/-- Inversion of a successful inner row loop. -/
theorem actualizarEnFila_some (jid : String) (cambios : Cambios)
    (l rows' : List Row) (fila' : Row)
    (h : actualizarEnFila jid cambios l = some (rows', fila')) :
    ∃ ua fila ub, l = ua ++ fila :: ub ∧ (∀ x ∈ ua, x.id ≠ jid) ∧
      fila.id = jid ∧ fila' = aplicarCambios cambios fila ∧
      rows' = ua ++ fila' :: ub := by
  induction l generalizing rows' with
  | nil => simp [actualizarEnFila] at h
  | cons a t ih =>
      by_cases ha : a.id = jid
      · simp only [actualizarEnFila, if_pos ha, Option.some.injEq,
          Prod.mk.injEq] at h
        obtain ⟨hrows, hfila⟩ := h
        exact ⟨[], a, t, rfl, by simp, ha, hfila.symm,
          by simp [← hrows, hfila]⟩
      · simp only [actualizarEnFila, if_neg ha] at h
        cases hEn : actualizarEnFila jid cambios t with
        | none => rw [hEn] at h; simp at h
        | some pr =>
            obtain ⟨rest', f2⟩ := pr
            rw [hEn] at h
            simp only [Option.some.injEq, Prod.mk.injEq] at h
            obtain ⟨hrows, hfila⟩ := h
            obtain ⟨ua, fila, ub, ht, hpre, hid, hap, hrest⟩ :=
              ih rest' (by rw [hEn, hfila])
            refine ⟨a :: ua, fila, ub, by simp [ht], ?_, hid, hap,
              by simp [← hrows, hrest]⟩
            intro x hx
            rcases List.mem_cons.mp hx with rfl | hx
            · exact ha
            · exact hpre x hx

/-- The outer update loop raises when no tagged record matches. -/
theorem actualizarGo_none (fs : FS) (jid : String) (cambios : Cambios)
    (l : List (Row × Path)) (h : ∀ x ∈ l, x.1.id ≠ jid) :
    actualizarGo fs jid cambios l = (.error "Jugador no encontrado.", fs) := by
  induction l with
  | nil => rfl
  | cons a t ih =>
      obtain ⟨j, origen⟩ := a
      have ha : ¬j.id = jid := h (j, origen) (by simp)
      simp only [actualizarGo, if_neg ha]
      exact ih (fun x hx => h x (by simp [hx]))

/-- The outer update loop acts at the first matching tagged record when the
inner loop succeeds there. -/
theorem actualizarGo_first (fs : FS) (jid : String) (cambios : Cambios)
    (pre post : List (Row × Path)) (r₀ : Row) (p₀ : Path)
    (hpre : ∀ x ∈ pre, x.1.id ≠ jid) (hr : r₀.id = jid)
    (rows' : List Row) (fila' : Row)
    (hEn : actualizarEnFila jid cambios (leer_csv fs p₀) =
      some (rows', fila')) :
    actualizarGo fs jid cambios (pre ++ (r₀, p₀) :: post) =
      (.ok fila', escribir_csv fs p₀ rows') := by
  induction pre with
  | nil => simp [actualizarGo, hr, hEn]
  | cons a t ih =>
      obtain ⟨j, origen⟩ := a
      have ha : ¬j.id = jid := hpre (j, origen) (by simp)
      simp only [List.cons_append, actualizarGo, if_neg ha]
      exact ih (fun x hx => hpre x (by simp [hx]))

/-- Inversion of a successful outer update loop. -/
theorem actualizarGo_ok (fs : FS) (jid : String) (cambios : Cambios)
    (l : List (Row × Path)) (fila' : Row) (fs' : FS)
    (h : actualizarGo fs jid cambios l = (.ok fila', fs')) :
    ∃ origen rows',
      actualizarEnFila jid cambios (leer_csv fs origen) =
        some (rows', fila') ∧ fs' = escribir_csv fs origen rows' := by
  induction l with
  | nil => simp [actualizarGo] at h
  | cons a t ih =>
      obtain ⟨j, origen⟩ := a
      by_cases ha : j.id = jid
      · simp only [actualizarGo, if_pos ha] at h
        cases hEn : actualizarEnFila jid cambios (leer_csv fs origen) with
        | none => rw [hEn] at h; exact ih h
        | some pr =>
            obtain ⟨rows', f2⟩ := pr
            rw [hEn] at h
            simp only [Prod.mk.injEq, Except.ok.injEq] at h
            obtain ⟨hf, hfs⟩ := h
            exact ⟨origen, rows', by rw [hEn, hf], hfs.symm⟩
      · simp only [actualizarGo, if_neg ha] at h
        exact ih h

/-- The delete loop returns false when no tagged record matches. -/
theorem eliminarGo_none (fs : FS) (jid : String) (l : List (Row × Path))
    (h : ∀ x ∈ l, x.1.id ≠ jid) : eliminarGo fs jid l = (false, fs) := by
  induction l with
  | nil => rfl
  | cons a t ih =>
      obtain ⟨j, origen⟩ := a
      have ha : ¬j.id = jid := h (j, origen) (by simp)
      simp only [eliminarGo, if_neg ha]
      exact ih (fun x hx => h x (by simp [hx]))

/-- The delete loop acts at the first matching tagged record. -/
theorem eliminarGo_first (fs : FS) (jid : String)
    (pre post : List (Row × Path)) (r₀ : Row) (p₀ : Path)
    (hpre : ∀ x ∈ pre, x.1.id ≠ jid) (hr : r₀.id = jid) :
    eliminarGo fs jid (pre ++ (r₀, p₀) :: post) =
      (true, escribir_csv fs p₀
        ((leer_csv fs p₀).filter (fun f => f.id ≠ jid))) := by
  induction pre with
  | nil => simp [eliminarGo, hr]
  | cons a t ih =>
      obtain ⟨j, origen⟩ := a
      have ha : ¬j.id = jid := hpre (j, origen) (by simp)
      simp only [List.cons_append, eliminarGo, if_neg ha]
      exact ih (fun x hx => hpre x (by simp [hx]))

/-- `os.makedirs` on an empty remainder changes nothing. -/
theorem FS.mkdirs_nil (d : FS) : d.mkdirs [] = d := by
  cases d <;> rfl

/-- `os.makedirs` never affects a regular file node (Python raises
instead). -/
theorem FS.mkdirs_file (f : List Row) (p : Path) :
    (FS.file f).mkdirs p = .file f := by
  cases p <;> rfl

/-- The walk over a root resolving to a directory is the traversal of its
listing. -/
theorem leer_todos_of_lookup_dir (fs : FS) (base : Path) (d : FS)
    (hl : fs.lookup base = some d) (hdir : d.isDir = true) :
    leer_todos_los_jugadores fs base = leerD d base := by
  unfold leer_todos_los_jugadores
  rw [hl]
  cases d with
  | file rows => simp [FS.isDir] at hdir
  | nilDir => rfl
  | consDir a b r => rfl

/-- The walk over a missing root is empty. -/
theorem leer_todos_of_lookup_none (fs : FS) (base : Path)
    (hl : fs.lookup base = none) :
    leer_todos_los_jugadores fs base = [] := by
  unfold leer_todos_los_jugadores
  rw [hl]

/-- Creating directories leaves the walk unchanged. -/
theorem leer_todos_mkdirs (fs : FS) (b parts : Path)
    (hcan : fs.canMkdirs (b ++ parts) = true) :
    leer_todos_los_jugadores (fs.mkdirs (b ++ parts)) b =
      leer_todos_los_jugadores fs b := by
  cases h0 : fs.lookup b with
  | none =>
      have h1 := FS.lookup_mkdirs_new fs b parts h0 hcan
      rw [leer_todos_of_lookup_none fs b h0,
        leer_todos_of_lookup_dir _ b _ h1 (FS.isDir_mkChain parts),
        leerD_mkChain]
  | some d0 =>
      have h1 := FS.lookup_mkdirs_append fs b parts d0 h0
      cases hd : d0.isDir with
      | false =>
          obtain ⟨f, rfl⟩ : ∃ f, d0 = .file f := by
            cases d0 with
            | file f => exact ⟨f, rfl⟩
            | nilDir => simp [FS.isDir] at hd
            | consDir a b c => simp [FS.isDir] at hd
          rw [FS.mkdirs_file] at h1
          unfold leer_todos_los_jugadores
          rw [h0, h1]
      | true =>
          rw [leer_todos_of_lookup_dir _ b _ h1
              (by rw [FS.isDir_mkdirs]; exact hd),
            leer_todos_of_lookup_dir fs b d0 h0 hd,
            leerD_mkdirs]

/-- Creating an empty file under the root leaves the walk unchanged. -/
theorem leer_todos_write_empty_top (fs : FS) (b y : Path) (d₁ : FS)
    (hb : fs.lookup b = some d₁) (hdir : d₁.isDir = true)
    (hnone : fs.lookup (b ++ y) = none) :
    leer_todos_los_jugadores (fs.write (b ++ y) []) b =
      leer_todos_los_jugadores fs b := by
  have hy : d₁.lookup y = none := by
    rw [FS.lookup_append, hb] at hnone
    simpa using hnone
  have h2 : (fs.write (b ++ y) []).lookup b = some (d₁.write y []) :=
    FS.lookup_write_append fs b y [] d₁ hb
  cases y with
  | nil => simp [FS.lookup] at hy
  | cons z y' =>
      have hdir2 : (d₁.write (z :: y') []).isDir = true := by
        rw [FS.isDir_write_cons]; exact hdir
      rw [leer_todos_of_lookup_dir _ b _ h2 hdir2,
        leer_todos_of_lookup_dir fs b d₁ hb hdir,
        leerD_write_empty d₁ (z :: y') b hy]

/-- Overwriting an existing file shifts the walk's total record count by
the difference between the new and old record lists. -/
theorem leer_todos_length_write_top (fs : FS) (b q : Path)
    (rows' old : List Row)
    (h : fs.lookup (b ++ q ++ [CSV_FILENAME]) = some (.file old)) :
    (leer_todos_los_jugadores
        (fs.write (b ++ q ++ [CSV_FILENAME]) rows') b).length + old.length =
      (leer_todos_los_jugadores fs b).length + rows'.length := by
  rw [List.append_assoc] at h
  have hsplit := h
  rw [FS.lookup_append] at hsplit
  cases h0 : fs.lookup b with
  | none => rw [h0] at hsplit; simp at hsplit
  | some d =>
      rw [h0] at hsplit
      simp only [Option.some_bind] at hsplit
      obtain ⟨m, c, rest, rfl⟩ : ∃ m c rest, d = FS.consDir m c rest := by
        cases d with
        | file f => cases q <;> simp [FS.lookup] at hsplit
        | nilDir => cases q <;> simp [FS.lookup] at hsplit
        | consDir m c rest => exact ⟨m, c, rest, rfl⟩
      have h2 := FS.lookup_write_append fs b (q ++ [CSV_FILENAME]) rows' _ h0
      have hdir2 :
          ((FS.consDir m c rest).write (q ++ [CSV_FILENAME]) rows').isDir
            = true := by
        obtain ⟨y, t, hyt⟩ : ∃ y t, q ++ [CSV_FILENAME] = y :: t := by
          cases q with
          | nil => exact ⟨CSV_FILENAME, [], rfl⟩
          | cons z q'' => exact ⟨z, q'' ++ [CSV_FILENAME], rfl⟩
        rw [hyt, FS.isDir_write_cons]
        simp [FS.isDir]
      rw [← List.append_assoc] at h2
      rw [leer_todos_of_lookup_dir _ b _ h2 hdir2,
        leer_todos_of_lookup_dir fs b _ h0 (by simp [FS.isDir])]
      exact leerD_length_write _ b q rows' old hsplit

/-- Three-segment path normalization. -/
theorem path3 (b : Path) (c e f : String) :
    b ++ [c, e] ++ [f] = b ++ [c, e, f] := by simp

/-- After `asegurar_directorio` and `inicializar_csv_si_necesario`, the
team's CSV resolves to a file holding exactly its previous records (none
when the file was just created), the walk is unchanged, and the tree stays
well-formed. -/
theorem alta_prep (fs : FS) (b : Path) (conf equipo : String)
    (hwf : fs.wfB = true)
    (hcan : fs.canMkdirs (b ++ [conf, equipo]) = true)
    (hnd : noDirAt fs (b ++ [conf, equipo, CSV_FILENAME]) = true) :
    (inicializar_csv_si_necesario (fs.mkdirs (b ++ [conf, equipo]))
        (b ++ [conf, equipo])).2 = b ++ [conf, equipo, CSV_FILENAME] ∧
    (inicializar_csv_si_necesario (fs.mkdirs (b ++ [conf, equipo]))
        (b ++ [conf, equipo])).1.lookup (b ++ [conf, equipo, CSV_FILENAME]) =
      some (.file (leer_csv fs (b ++ [conf, equipo, CSV_FILENAME]))) ∧
    leer_todos_los_jugadores
        (inicializar_csv_si_necesario (fs.mkdirs (b ++ [conf, equipo]))
          (b ++ [conf, equipo])).1 b =
      leer_todos_los_jugadores fs b ∧
    (inicializar_csv_si_necesario (fs.mkdirs (b ++ [conf, equipo]))
        (b ++ [conf, equipo])).1.wfB = true := by
  set P := b ++ [conf, equipo] with hP
  set fs₁ := fs.mkdirs P with hfs₁
  have hwf₁ : fs₁.wfB = true := FS.wfB_mkdirs fs P hwf
  have hcsv₁ : fs₁.lookup (P ++ [CSV_FILENAME]) =
      fs.lookup (P ++ [CSV_FILENAME]) :=
    FS.lookup_mkdirs_deeper fs P CSV_FILENAME [] hcan
  have hLT₁ : leer_todos_los_jugadores fs₁ b =
      leer_todos_los_jugadores fs b := leer_todos_mkdirs fs b _ hcan
  have hDex : ∃ D, fs₁.lookup P = some D ∧ D.isDir = true := by
    cases h0 : fs.lookup P with
    | none =>
        refine ⟨FS.mkChain [], ?_, by simp [FS.mkChain, FS.isDir]⟩
        have := FS.lookup_mkdirs_new fs P [] h0 (by simpa using hcan)
        simpa using this
    | some d =>
        refine ⟨d, ?_, FS.canMkdirs_isDir fs P d hcan h0⟩
        have := FS.lookup_mkdirs_append fs P [] d h0
        simpa [FS.mkdirs_nil] using this
  obtain ⟨D, hD, hDdir⟩ := hDex
  have hDwf : D.wfB = true := FS.wfB_lookup fs₁ P D hwf₁ hD
  unfold inicializar_csv_si_necesario
  cases hcsv : fs₁.lookup (P ++ [CSV_FILENAME]) with
  | some e =>
      have hfile : ∃ rows, e = .file rows := by
        rw [hcsv₁] at hcsv
        have := hnd
        unfold noDirAt at this
        rw [path3] at hcsv
        rw [hcsv] at this
        cases e with
        | file rows => exact ⟨rows, rfl⟩
        | nilDir => simp [FS.isDir] at this
        | consDir a c r => simp [FS.isDir] at this
      obtain ⟨rows, rfl⟩ := hfile
      have hleer : leer_csv fs (b ++ [conf, equipo, CSV_FILENAME]) = rows := by
        apply leer_csv_of_lookup
        rw [← path3, ← hcsv₁]
        exact hcsv
      simp only [hcsv, Option.isSome_some, if_pos, if_true]
      refine ⟨path3 b conf equipo CSV_FILENAME, ?_, hLT₁, hwf₁⟩
      rw [hleer, ← path3]
      exact hcsv
  | none =>
      have hDnone : D.lookup [CSV_FILENAME] = none := by
        rw [FS.lookup_append, hD] at hcsv
        simpa using hcsv
      have hw2 : (fs₁.write (P ++ [CSV_FILENAME]) []).lookup P =
          some (D.write [CSV_FILENAME] []) :=
        FS.lookup_write_append fs₁ P [CSV_FILENAME] [] D hD
      have hlkcsv : (fs₁.write (P ++ [CSV_FILENAME]) []).lookup
          (P ++ [CSV_FILENAME]) = some (.file []) := by
        rw [FS.lookup_append, hw2]
        simpa using FS.lookup_write_new D CSV_FILENAME [] hDwf hDdir hDnone
      have hleer : leer_csv fs (b ++ [conf, equipo, CSV_FILENAME]) = [] := by
        rw [← path3]
        unfold leer_csv
        rw [← hcsv₁, hcsv]
      simp only [hcsv, Option.isSome_none, Bool.false_eq_true, if_false]
      refine ⟨path3 b conf equipo CSV_FILENAME, ?_, ?_, ?_⟩
      · rw [hleer, ← path3]
        exact hlkcsv
      · obtain ⟨d₁, hb⟩ : ∃ d₁, fs₁.lookup b = some d₁ := by
          have hx := hD
          rw [hP, FS.lookup_append] at hx
          cases hb : fs₁.lookup b with
          | none => rw [hb] at hx; simp at hx
          | some d₁ => exact ⟨d₁, rfl⟩
        have hDd : d₁.lookup [conf, equipo] = some D := by
          have hx := hD
          rw [hP, FS.lookup_append, hb] at hx
          simpa using hx
        have hd₁dir : d₁.isDir = true := by
          cases d₁ with
          | file f => simp [FS.lookup] at hDd
          | nilDir => simp [FS.lookup] at hDd
          | consDir x y z => simp [FS.isDir]
        have hnone2 :
            fs₁.lookup (b ++ ([conf, equipo] ++ [CSV_FILENAME])) = none := by
          rw [← List.append_assoc, ← hP]
          exact hcsv
        have hwe := leer_todos_write_empty_top fs₁ b
          ([conf, equipo] ++ [CSV_FILENAME]) d₁ hb hd₁dir hnone2
        rw [← List.append_assoc, ← hP] at hwe
        rw [hwe]
        exact hLT₁
      · exact FS.wfB_write fs₁ (P ++ [CSV_FILENAME]) [] hwf₁

/-- Generated identifiers are pairwise distinct. -/
theorem mkUuid_inj (a b : Nat) (h : mkUuid a = mkUuid b) : a = b := by
  unfold mkUuid at h
  have h2 : ('u' :: List.replicate a 'x') = ('u' :: List.replicate b 'x') :=
    congrArg String.data h
  have h3 : List.replicate a 'x' = List.replicate b 'x' :=
    (List.cons.injEq .. ▸ h2).2
  simpa using congrArg List.length h3

/-- Generated identifiers are non-empty. -/
theorem mkUuid_ne_empty (n : Nat) : mkUuid n ≠ "" := by
  unfold mkUuid
  intro h
  simpa using congrArg String.data h

/-- Evaluating `alta_jugador` on a fully valid input: the returned record,
the written file and the advanced identifier supply. -/
theorem alta_ok_eq (fs : FS) (g : UuidGen) (b : Path) (conf equipo : String)
    (j : JugadorInput) (nom pos : String) (pt rb asi : PyVal) (xp xr xa : ℚ)
    (hnom : j.nombre = some nom) (hpos : j.posicion = some pos)
    (hpt : j.puntos = some pt) (hrb : j.rebotes = some rb)
    (hasi : j.asistencias = some asi)
    (hvn : validar_nombre nom = true) (hvp : validar_posicion pos = true)
    (hxp : pt.toFloat? = some xp) (hxr : rb.toFloat? = some xr)
    (hxa : asi.toFloat? = some xa)
    (hgep : 0 ≤ xp) (hger : 0 ≤ xr) (hgea : 0 ≤ xa) :
    alta_jugador fs g b conf equipo j =
      ⟨.ok ⟨mkUuid g.counter, pyStrip nom, pyLower pos, xp, xr, xa⟩,
        escribir_csv
          (inicializar_csv_si_necesario (fs.mkdirs (b ++ [conf, equipo]))
            (b ++ [conf, equipo])).1
          (inicializar_csv_si_necesario (fs.mkdirs (b ++ [conf, equipo]))
            (b ++ [conf, equipo])).2
          (leer_csv
            (inicializar_csv_si_necesario (fs.mkdirs (b ++ [conf, equipo]))
              (b ++ [conf, equipo])).1
            (inicializar_csv_si_necesario (fs.mkdirs (b ++ [conf, equipo]))
              (b ++ [conf, equipo])).2
           ++ [(⟨mkUuid g.counter, pyStrip nom, pyLower pos, xp, xr, xa⟩ :
                 Jugador).toRow]),
        ⟨g.counter + 1⟩⟩ := by
  have hvn' : validar_nombre (j.nombre.getD "") = true := by
    rw [hnom]; exact hvn
  have hvp' : validar_posicion (j.posicion.getD "") = true := by
    rw [hpos]; exact hvp
  have hve1 : validar_estadistica (j.puntos.getD (.num 0)) = true := by
    rw [hpt]
    simp [validar_estadistica, hxp, hgep]
  have hve2 : validar_estadistica (j.rebotes.getD (.num 0)) = true := by
    rw [hrb]
    simp [validar_estadistica, hxr, hger]
  have hve3 : validar_estadistica (j.asistencias.getD (.num 0)) = true := by
    rw [hasi]
    simp [validar_estadistica, hxa, hgea]
  simp only [alta_jugador, hnom, hpos, hpt, hrb, hasi, Option.getD_some,
    hvn, hvp, hve1, hve2, hve3, Bool.not_true, Bool.false_eq_true, if_false,
    hxp, hxr, hxa, asegurar_directorio, UuidGen.fresh]
  rw [hpt] at hve1
  rw [hrb] at hve2
  rw [hasi] at hve3
  simp only [Option.getD_some] at hve1 hve2 hve3
  simp [hve1, hve2, hve3]

/-- Inversion of a successful `alta_jugador`: the input was fully valid and
the returned record is built from the fresh identifier and normalized
fields. -/
theorem alta_ok_inv (fs : FS) (g : UuidGen) (b : Path)
    (conf equipo : String) (j : JugadorInput) (nuevo : Jugador)
    (h : (alta_jugador fs g b conf equipo j).result = .ok nuevo) :
    ∃ nom pos pt rb asi xp xr xa,
      j.nombre = some nom ∧ j.posicion = some pos ∧ j.puntos = some pt ∧
      j.rebotes = some rb ∧ j.asistencias = some asi ∧
      validar_nombre nom = true ∧ validar_posicion pos = true ∧
      pt.toFloat? = some xp ∧ rb.toFloat? = some xr ∧
      asi.toFloat? = some xa ∧ 0 ≤ xp ∧ 0 ≤ xr ∧ 0 ≤ xa ∧
      nuevo = ⟨mkUuid g.counter, pyStrip nom, pyLower pos, xp, xr, xa⟩ := by
  by_cases hvn : validar_nombre (j.nombre.getD "") = true
  case neg =>
      simp [alta_jugador, hvn] at h
  by_cases hvp : validar_posicion (j.posicion.getD "") = true
  case neg =>
      simp [alta_jugador, hvn, hvp] at h
  by_cases hv1 : validar_estadistica (j.puntos.getD (.num 0)) = true
  case neg =>
      simp [alta_jugador, hvn, hvp, hv1] at h
  by_cases hv2 : validar_estadistica (j.rebotes.getD (.num 0)) = true
  case neg =>
      simp [alta_jugador, hvn, hvp, hv1, hv2] at h
  by_cases hv3 : validar_estadistica (j.asistencias.getD (.num 0)) = true
  case neg =>
      simp [alta_jugador, hvn, hvp, hv1, hv2, hv3] at h
  obtain ⟨nom, hnom⟩ : ∃ nom, j.nombre = some nom := by
    cases hn : j.nombre with
    | none =>
        rw [hn] at hvn
        simp [validar_nombre, pyStrip] at hvn
    | some nom => exact ⟨nom, rfl⟩
  obtain ⟨pos, hpos⟩ : ∃ pos, j.posicion = some pos := by
    cases hn : j.posicion with
    | none =>
        rw [hn] at hvp
        simp [validar_posicion, pyLower, posiciones_validas] at hvp
    | some pos => exact ⟨pos, rfl⟩
  have hvnN : validar_nombre nom = true := by rw [hnom] at hvn; exact hvn
  have hvpN : validar_posicion pos = true := by rw [hpos] at hvp; exact hvp
  have hv0 : validar_estadistica (.num 0) = true := by
    simp [validar_estadistica, PyVal.toFloat?]
  cases hpt : j.puntos with
  | none =>
      simp [alta_jugador, hnom, hpos, hpt, hvnN, hvpN, hv0,
        hv1, hv2, hv3] at h
  | some pt =>
  cases hrb : j.rebotes with
  | none =>
      rw [hpt] at hv1
      simp only [Option.getD_some] at hv1
      simp [alta_jugador, hnom, hpos, hpt, hrb, hvnN, hvpN, hv0,
        hv1, hv2, hv3] at h
  | some rb =>
  cases hasi : j.asistencias with
  | none =>
      rw [hpt] at hv1
      rw [hrb] at hv2
      simp only [Option.getD_some] at hv1 hv2
      simp [alta_jugador, hnom, hpos, hpt, hrb, hasi, hvnN, hvpN, hv0,
        hv1, hv2, hv3] at h
  | some asi =>
  rw [hpt] at hv1
  rw [hrb] at hv2
  rw [hasi] at hv3
  simp only [Option.getD_some] at hv1 hv2 hv3
  obtain ⟨xp, hxp, hgep⟩ : ∃ xp, pt.toFloat? = some xp ∧ 0 ≤ xp := by
    cases hf : pt.toFloat? with
    | none => rw [validar_estadistica, hf] at hv1; simp at hv1
    | some x =>
        refine ⟨x, rfl, ?_⟩
        rw [validar_estadistica, hf] at hv1
        simpa using hv1
  obtain ⟨xr, hxr, hger⟩ : ∃ xr, rb.toFloat? = some xr ∧ 0 ≤ xr := by
    cases hf : rb.toFloat? with
    | none => rw [validar_estadistica, hf] at hv2; simp at hv2
    | some x =>
        refine ⟨x, rfl, ?_⟩
        rw [validar_estadistica, hf] at hv2
        simpa using hv2
  obtain ⟨xa, hxa, hgea⟩ : ∃ xa, asi.toFloat? = some xa ∧ 0 ≤ xa := by
    cases hf : asi.toFloat? with
    | none => rw [validar_estadistica, hf] at hv3; simp at hv3
    | some x =>
        refine ⟨x, rfl, ?_⟩
        rw [validar_estadistica, hf] at hv3
        simpa using hv3
  refine ⟨nom, pos, pt, rb, asi, xp, xr, xa, hnom, hpos, rfl, rfl, rfl,
    hvnN, hvpN, hxp, hxr, hxa, hgep, hger, hgea, ?_⟩
  have heq := alta_ok_eq fs g b conf equipo j nom pos pt rb asi xp xr xa
    hnom hpos hpt hrb hasi hvnN hvpN hxp hxr hxa hgep hger hgea
  rw [heq] at h
  exact (Except.ok.injEq .. ▸ h).symm

/-- Evaluating `alta_jugador` when validation passes but a required
statistic key is missing from the input: the `KeyError` is raised only
after the directory and CSV have been ensured. -/
theorem alta_keyerror_eq (fs : FS) (g : UuidGen) (b : Path)
    (conf equipo : String) (j : JugadorInput)
    (hvn : validar_nombre (j.nombre.getD "") = true)
    (hvp : validar_posicion (j.posicion.getD "") = true)
    (hv1 : validar_estadistica (j.puntos.getD (.num 0)) = true)
    (hv2 : validar_estadistica (j.rebotes.getD (.num 0)) = true)
    (hv3 : validar_estadistica (j.asistencias.getD (.num 0)) = true)
    (hmiss : j.puntos = none ∨ j.rebotes = none ∨ j.asistencias = none) :
    alta_jugador fs g b conf equipo j =
      ⟨.error (keyErrorMsg j),
        (inicializar_csv_si_necesario (fs.mkdirs (b ++ [conf, equipo]))
          (b ++ [conf, equipo])).1, g⟩ := by
  obtain ⟨nom, hnom⟩ : ∃ nom, j.nombre = some nom := by
    cases hn : j.nombre with
    | none =>
        rw [hn] at hvn
        simp [validar_nombre, pyStrip] at hvn
    | some nom => exact ⟨nom, rfl⟩
  obtain ⟨pos, hpos⟩ : ∃ pos, j.posicion = some pos := by
    cases hn : j.posicion with
    | none =>
        rw [hn] at hvp
        simp [validar_posicion, pyLower, posiciones_validas] at hvp
    | some pos => exact ⟨pos, rfl⟩
  have hvnN : validar_nombre nom = true := by rw [hnom] at hvn; exact hvn
  have hvpN : validar_posicion pos = true := by rw [hpos] at hvp; exact hvp
  have hv0 : validar_estadistica (.num 0) = true := by
    simp [validar_estadistica, PyVal.toFloat?]
  cases hpt : j.puntos with
  | none =>
      simp only [alta_jugador, hnom, hpos, hpt, Option.getD_some,
        Option.getD_none, hvnN, hvpN, hv0, hv2, hv3, Bool.not_true,
        Bool.false_eq_true, if_false, asegurar_directorio]
  | some pt =>
  have hv1N : validar_estadistica pt = true := by
    rw [hpt] at hv1
    simpa using hv1
  cases hrb : j.rebotes with
  | none =>
      simp only [alta_jugador, hnom, hpos, hpt, hrb, Option.getD_some,
        Option.getD_none, hvnN, hvpN, hv0, hv1N, hv3, Bool.not_true,
        Bool.false_eq_true, if_false, asegurar_directorio]
  | some rb =>
  have hv2N : validar_estadistica rb = true := by
    rw [hrb] at hv2
    simpa using hv2
  cases hasi : j.asistencias with
  | none =>
      simp only [alta_jugador, hnom, hpos, hpt, hrb, hasi, Option.getD_some,
        Option.getD_none, hvnN, hvpN, hv0, hv1N, hv2N, Bool.not_true,
        Bool.false_eq_true, if_false, asegurar_directorio]
  | some asi =>
      rw [hpt, hrb, hasi] at hmiss
      simp at hmiss

/-- A list with no matching identifier filters to nothing. -/
theorem filter_id_eq_nil (l : List Row) (jid : String)
    (h : ∀ x ∈ l, x.id ≠ jid) :
    l.filter (fun x => x.id = jid) = [] := by
  induction l with
  | nil => rfl
  | cons a t ih =>
      have ha : ¬a.id = jid := h a (by simp)
      simp only [List.filter_cons]
      rw [if_neg (by simpa using ha)]
      exact ih (fun x hx => h x (by simp [hx]))

/-- Filtering out a uniquely occurring identifier removes exactly one
row. -/
theorem filter_ne_length_of_unique (l : List Row) (jid : String)
    (h : l.countP (fun f => f.id = jid) = 1) :
    (l.filter (fun f => f.id ≠ jid)).length + 1 = l.length := by
  induction l with
  | nil => simp at h
  | cons a t ih =>
      rw [List.countP_cons] at h
      by_cases ha : a.id = jid
      · have h0 : t.countP (fun f => f.id = jid) = 0 := by
          rw [if_pos (by simpa using ha)] at h
          omega
        have hfilter : t.filter (fun f => f.id ≠ jid) = t := by
          rw [List.filter_eq_self]
          intro x hx
          have := List.countP_eq_zero.mp h0 x hx
          simpa using this
        simp only [List.filter_cons]
        rw [if_neg (by simpa using ha), hfilter]
        simp
      · rw [if_neg (by simpa using ha), Nat.add_zero] at h
        have := ih h
        simp only [List.filter_cons]
        rw [if_pos (by simpa using ha)]
        simp only [List.length_cons]
        omega

/-! ### Claim theorems -/

/-- Claim C1: for every directory tree, `leer_todos_los_jugadores` returns
exactly the records of every record-file named `players.csv` anywhere under
the root, at any nesting depth, each tagged with the full path of the file
it was loaded from; a missing root yields the empty collection; and a
successful `alta_jugador` grows the collection by exactly one record. -/
theorem C1_leer_todos_characterization (fs : FS) (base : Path) :
    (fs.lookup base = none → leer_todos_los_jugadores fs base = []) ∧
    (fs.wfB = true → ∀ r p, (r, p) ∈ leer_todos_los_jugadores fs base →
      ∃ q rows, p = base ++ q ++ [CSV_FILENAME] ∧
        fs.lookup p = some (.file rows) ∧ r ∈ rows) ∧
    (fs.wfB = true → ∀ q rows r,
      fs.lookup (base ++ q ++ [CSV_FILENAME]) = some (.file rows) →
      (leer_todos_los_jugadores fs base).count
          (r, base ++ q ++ [CSV_FILENAME]) = rows.count r) ∧
    (∀ g conf equipo j nuevo, fs.wfB = true →
      fs.canMkdirs (base ++ [conf, equipo]) = true →
      noDirAt fs (base ++ [conf, equipo, CSV_FILENAME]) = true →
      (alta_jugador fs g base conf equipo j).result = .ok nuevo →
      (leer_todos_los_jugadores
          (alta_jugador fs g base conf equipo j).fs base).length
        = (leer_todos_los_jugadores fs base).length + 1) := by
  refine ⟨leer_todos_of_lookup_none fs base,
    fun hwf r p h => leer_todos_sound fs base r p hwf h,
    fun hwf q rows r h => leer_todos_count fs base q rows r hwf h,
    fun g conf equipo j nuevo hwf hcan hnd hok => ?_⟩
  obtain ⟨nom, pos, pt, rb, asi, xp, xr, xa, hnom, hpos, hpt, hrb, hasi,
    hvn, hvp, hxp, hxr, hxa, hgep, hger, hgea, hnuevo⟩ :=
    alta_ok_inv fs g base conf equipo j nuevo hok
  have heq := alta_ok_eq fs g base conf equipo j nom pos pt rb asi xp xr xa
    hnom hpos hpt hrb hasi hvn hvp hxp hxr hxa hgep hger hgea
  obtain ⟨hpr2, hlkcsv, hLT, hwf2⟩ :=
    alta_prep fs base conf equipo hwf hcan hnd
  rw [heq]
  simp only [hpr2]
  have hold : leer_csv
      (inicializar_csv_si_necesario (fs.mkdirs (base ++ [conf, equipo]))
        (base ++ [conf, equipo])).1
      (base ++ [conf, equipo, CSV_FILENAME]) =
      leer_csv fs (base ++ [conf, equipo, CSV_FILENAME]) :=
    leer_csv_of_lookup _ _ _ hlkcsv
  rw [hold]
  have hlen := leer_todos_length_write_top
    (inicializar_csv_si_necesario (fs.mkdirs (base ++ [conf, equipo]))
      (base ++ [conf, equipo])).1
    base [conf, equipo]
    (leer_csv fs (base ++ [conf, equipo, CSV_FILENAME])
      ++ [(⟨mkUuid g.counter, pyStrip nom, pyLower pos, xp, xr, xa⟩ :
            Jugador).toRow])
    (leer_csv fs (base ++ [conf, equipo, CSV_FILENAME]))
    (by rw [path3]; exact hlkcsv)
  rw [path3, hLT] at hlen
  unfold escribir_csv
  simp only [List.length_append, List.length_cons, List.length_nil] at hlen
  omega

/-- Claim C1 witness: the characterization at concrete trees — a missing
root, the sample hierarchy's counts, and one concrete successful creation
growing the walk by one. -/
theorem C1_witness :
    leer_todos_los_jugadores (FS.consDir "otro" (.file []) .nilDir)
        ["data"] = [] ∧
    (leer_todos_los_jugadores exFS []).count
        (exRowA, ["este", "lakers", "players.csv"]) =
      [exRowA, exRowB].count exRowA ∧
    (leer_todos_los_jugadores
        (alta_jugador exFS ⟨0⟩ [] "oeste" "celtics" exInput).fs []).length
      = (leer_todos_los_jugadores exFS []).length + 1 :=
  ⟨(C1_leer_todos_characterization (FS.consDir "otro" (.file [])
      .nilDir) ["data"]).1 (by rfl),
   (C1_leer_todos_characterization exFS []).2.2.1 (by rfl)
      ["este", "lakers"] [exRowA, exRowB] exRowA (by rfl),
   (C1_leer_todos_characterization exFS []).2.2.2 ⟨0⟩ "oeste" "celtics"
      exInput ⟨"u", "Ana", "base", 10, 5, Rat.divInt 7 2⟩ (by rfl) (by rfl)
      (by rfl) (by rfl)⟩

/-- Claim C4: a creation whose fields fail validation — empty trimmed name,
lower-cased position outside the fixed set, or a statistic that is negative
or does not parse — raises the validation error naming the offending field
and performs no filesystem mutation (and does not consume an
identifier). -/
theorem C4_alta_validation (fs : FS) (g : UuidGen) (b : Path)
    (conf equipo : String) (j : JugadorInput) :
    (validar_nombre (j.nombre.getD "") = false →
      alta_jugador fs g b conf equipo j = ⟨.error "Nombre inválido.", fs, g⟩)
    ∧
    (validar_nombre (j.nombre.getD "") = true →
      validar_posicion (j.posicion.getD "") = false →
      alta_jugador fs g b conf equipo j =
        ⟨.error "Posición inválida.", fs, g⟩) ∧
    (validar_nombre (j.nombre.getD "") = true →
      validar_posicion (j.posicion.getD "") = true →
      validar_estadistica (j.puntos.getD (.num 0)) = false →
      alta_jugador fs g b conf equipo j =
        ⟨.error "Valor inválido en puntos", fs, g⟩) ∧
    (validar_nombre (j.nombre.getD "") = true →
      validar_posicion (j.posicion.getD "") = true →
      validar_estadistica (j.puntos.getD (.num 0)) = true →
      validar_estadistica (j.rebotes.getD (.num 0)) = false →
      alta_jugador fs g b conf equipo j =
        ⟨.error "Valor inválido en rebotes", fs, g⟩) ∧
    (validar_nombre (j.nombre.getD "") = true →
      validar_posicion (j.posicion.getD "") = true →
      validar_estadistica (j.puntos.getD (.num 0)) = true →
      validar_estadistica (j.rebotes.getD (.num 0)) = true →
      validar_estadistica (j.asistencias.getD (.num 0)) = false →
      alta_jugador fs g b conf equipo j =
        ⟨.error "Valor inválido en asistencias", fs, g⟩) := by
  refine ⟨fun h1 => ?_, fun h1 h2 => ?_, fun h1 h2 h3 => ?_,
    fun h1 h2 h3 h4 => ?_, fun h1 h2 h3 h4 h5 => ?_⟩
  · simp [alta_jugador, h1]
  · simp [alta_jugador, h1, h2]
  · simp [alta_jugador, h1, h2, h3]
  · simp [alta_jugador, h1, h2, h3, h4]
  · simp [alta_jugador, h1, h2, h3, h4, h5]

/-- Claim C4 witness: concrete rejected creations — blank name, position
outside the set, negative statistic — each leaving the sample tree and the
identifier supply untouched. -/
theorem C4_witness :
    alta_jugador exFS ⟨0⟩ [] "este" "lakers"
        ⟨some "   ", some "base", some (.num 1), some (.num 1),
          some (.num 1)⟩ = ⟨.error "Nombre inválido.", exFS, ⟨0⟩⟩ ∧
    alta_jugador exFS ⟨0⟩ [] "este" "lakers"
        ⟨some "Ana", some "pivote", some (.num 1), some (.num 1),
          some (.num 1)⟩ = ⟨.error "Posición inválida.", exFS, ⟨0⟩⟩ ∧
    alta_jugador exFS ⟨0⟩ [] "este" "lakers"
        ⟨some "Ana", some "base", some (.str "-1"), some (.num 1),
          some (.num 1)⟩ = ⟨.error "Valor inválido en puntos", exFS, ⟨0⟩⟩ ∧
    alta_jugador exFS ⟨0⟩ [] "este" "lakers"
        ⟨some "Ana", some "base", some (.num 1), some (.str "abc"),
          some (.num 1)⟩ = ⟨.error "Valor inválido en rebotes", exFS, ⟨0⟩⟩ :=
  ⟨(C4_alta_validation exFS ⟨0⟩ [] "este" "lakers" _).1 (by rfl),
   (C4_alta_validation exFS ⟨0⟩ [] "este" "lakers" _).2.1 (by rfl) (by rfl),
   (C4_alta_validation exFS ⟨0⟩ [] "este" "lakers" _).2.2.1 (by rfl) (by rfl)
     (by rfl),
   (C4_alta_validation exFS ⟨0⟩ [] "este" "lakers" _).2.2.2.1 (by rfl)
     (by rfl) (by rfl) (by rfl)⟩

/-- Claim C5: an update whose identifier matches no record anywhere in the
hierarchy raises the not-found error and leaves every file unchanged. -/
theorem C5_actualizar_not_found (fs : FS) (b : Path) (jid : String)
    (cambios : Cambios)
    (h : ∀ x ∈ leer_todos_los_jugadores fs b, x.1.id ≠ jid) :
    actualizar_jugador fs b jid cambios =
      (.error "Jugador no encontrado.", fs) ∧
    ∀ q, leer_csv (actualizar_jugador fs b jid cambios).2 q =
      leer_csv fs q := by
  have hgo := actualizarGo_none fs jid cambios
    (leer_todos_los_jugadores fs b) h
  exact ⟨hgo, fun q => by rw [actualizar_jugador, hgo]⟩

/-- Claim C5 witness: updating a missing identifier in the sample hierarchy
raises the not-found error and no file changes. -/
theorem C5_witness :
    actualizar_jugador exFS [] "zz" exCambios =
      (.error "Jugador no encontrado.", exFS) ∧
    leer_csv (actualizar_jugador exFS [] "zz" exCambios).2
      ["este", "lakers", "players.csv"] =
      leer_csv exFS ["este", "lakers", "players.csv"] :=
  ⟨(C5_actualizar_not_found exFS [] "zz" exCambios (by decide)).1,
   (C5_actualizar_not_found exFS [] "zz" exCambios (by decide)).2
     ["este", "lakers", "players.csv"]⟩

/-- Claim C9: global statistics on an empty collection report zero count
and nothing else; on a non-empty collection whose stored texts parse they
report the count and, for each statistic, the sum of the parsed values
divided by the count. -/
theorem C9_estadisticas (js : List Row) (ps rs as2 : List ℚ) :
    (estadisticas_globales [] = some .vacio) ∧
    (js ≠ [] →
      js.mapM (fun j => parseFloat j.puntos) = some ps →
      js.mapM (fun j => parseFloat j.rebotes) = some rs →
      js.mapM (fun j => parseFloat j.asistencias) = some as2 →
      estadisticas_globales js = some (.datos js.length
        (ps.sum / (js.length : ℚ)) (rs.sum / (js.length : ℚ))
        (as2.sum / (js.length : ℚ)))) := by
  refine ⟨rfl, fun hne hp hr ha => ?_⟩
  have hlen : ¬js.length = 0 := by
    simpa using hne
  unfold estadisticas_globales
  rw [if_neg hlen, hp, hr, ha]

/-- Claim C9 witness: rows with puntos 10, 20, 30 give mean puntos 20 (and
means 5 and 2 for the other columns). -/
theorem C9_witness :
    estadisticas_globales statRows = some (.datos 3 20 5 2) := by
  have h := (C9_estadisticas statRows [10, 20, 30] [4, 5, 6] [1, 2, 3]).2
    (by decide) (by decide) (by decide) (by decide)
  have hlen : statRows.length = 3 := rfl
  rw [hlen] at h
  rw [h]
  norm_num

/-- Claim C2: updating an existing identifier applies exactly the keys
present in the changes mapping to the matching row of the origin file,
absent keys keep their prior value, the returned record carries the new and
the unchanged values, only the origin file is rewritten, and afterwards
that file holds exactly one row with the new values (given the identifier
occurs once in it). -/
theorem C2_actualizar_updates (fs : FS) (b : Path) (jid : String)
    (cambios : Cambios) (r₀ : Row) (p₀ : Path)
    (hwf : fs.wfB = true)
    (hfind : (leer_todos_los_jugadores fs b).find?
      (fun x => x.1.id = jid) = some (r₀, p₀)) :
    ∃ fs' ua fila ub fila',
      actualizar_jugador fs b jid cambios = (.ok fila', fs') ∧
      leer_csv fs p₀ = ua ++ fila :: ub ∧
      (∀ x ∈ ua, x.id ≠ jid) ∧ fila.id = jid ∧
      fila'.id = fila.id ∧
      fila'.nombre = cambios.nombre.getD fila.nombre ∧
      fila'.posicion = cambios.posicion.getD fila.posicion ∧
      fila'.puntos = cambios.puntos.getD fila.puntos ∧
      fila'.rebotes = cambios.rebotes.getD fila.rebotes ∧
      fila'.asistencias = cambios.asistencias.getD fila.asistencias ∧
      leer_csv fs' p₀ = ua ++ fila' :: ub ∧
      (∀ q2, q2 ≠ p₀ → leer_csv fs' q2 = leer_csv fs q2) ∧
      ((∀ x ∈ ub, x.id ≠ jid) →
        (leer_csv fs' p₀).filter (fun x => x.id = jid) = [fila']) := by
  obtain ⟨pre, post, hl, hpre, hy⟩ :=
    find_first_decomp _ _ _ hfind
  have hid : r₀.id = jid := of_decide_eq_true hy
  have hpre' : ∀ x ∈ pre, x.1.id ≠ jid := fun x hx =>
    of_decide_eq_false (hpre x hx)
  have hmem : (r₀, p₀) ∈ leer_todos_los_jugadores fs b := by
    rw [hl]
    simp
  obtain ⟨q, rows, hp₀, hlk, hr₀mem⟩ :=
    leer_todos_sound fs b r₀ p₀ hwf hmem
  have hleer : leer_csv fs p₀ = rows := leer_csv_of_lookup fs p₀ rows hlk
  have hsome : (rows.find? (fun x => x.id = jid)).isSome := by
    rw [List.find?_isSome]
    exact ⟨r₀, hr₀mem, by simpa using hid⟩
  obtain ⟨y, hyfind⟩ := Option.isSome_iff_exists.mp hsome
  obtain ⟨ua, ub, hrows, hpre2, hy2⟩ := find_first_decomp _ _ _ hyfind
  have hyid : y.id = jid := of_decide_eq_true hy2
  have hpre2' : ∀ x ∈ ua, x.id ≠ jid := fun x hx =>
    of_decide_eq_false (hpre2 x hx)
  have hEn : actualizarEnFila jid cambios (leer_csv fs p₀) =
      some (ua ++ aplicarCambios cambios y :: ub,
        aplicarCambios cambios y) := by
    rw [hleer, hrows]
    exact actualizarEnFila_first jid cambios ua y ub hpre2' hyid
  have hgo := actualizarGo_first fs jid cambios pre post r₀ p₀ hpre' hid
    _ _ hEn
  have heq : actualizar_jugador fs b jid cambios =
      (.ok (aplicarCambios cambios y),
        escribir_csv fs p₀ (ua ++ aplicarCambios cambios y :: ub)) := by
    rw [actualizar_jugador, hl]
    exact hgo
  refine ⟨_, ua, y, ub, aplicarCambios cambios y, heq, by rw [hleer, hrows],
    hpre2', hyid, rfl, rfl, rfl, rfl, rfl, rfl, ?_, ?_, ?_⟩
  · simp only [escribir_csv]
    exact leer_csv_of_lookup _ p₀ _
      (FS.lookup_write_self fs p₀ _ rows hlk)
  · intro q2 hq2
    simp only [escribir_csv]
    exact leer_csv_write_ne fs p₀ q2 _ rows hlk hq2
  · intro hub
    simp only [escribir_csv]
    rw [leer_csv_of_lookup _ p₀ _ (FS.lookup_write_self fs p₀ _ rows hlk)]
    rw [List.filter_append, filter_id_eq_nil ua jid hpre2']
    simp only [List.filter_cons]
    rw [if_pos (by simpa [aplicarCambios] using hyid),
      filter_id_eq_nil ub jid hub]
    simp

/-- Claim C2 witness: updating the sample record `b`, changing only puntos
(and illegally passing an id key), with the characterization instantiated
at the sample hierarchy. -/
theorem C2_witness :
    FS.wfB exFS = true ∧
    (leer_todos_los_jugadores exFS []).find? (fun x => x.1.id = "b") =
      some (exRowB, ["este", "lakers", "players.csv"]) ∧
    (∃ fs' ua fila ub fila',
      actualizar_jugador exFS [] "b" exCambios = (.ok fila', fs') ∧
      leer_csv exFS ["este", "lakers", "players.csv"] = ua ++ fila :: ub ∧
      (∀ x ∈ ua, x.id ≠ "b") ∧ fila.id = "b" ∧
      fila'.id = fila.id ∧
      fila'.nombre = exCambios.nombre.getD fila.nombre ∧
      fila'.posicion = exCambios.posicion.getD fila.posicion ∧
      fila'.puntos = exCambios.puntos.getD fila.puntos ∧
      fila'.rebotes = exCambios.rebotes.getD fila.rebotes ∧
      fila'.asistencias = exCambios.asistencias.getD fila.asistencias ∧
      leer_csv fs' ["este", "lakers", "players.csv"] = ua ++ fila' :: ub ∧
      (∀ q2, q2 ≠ ["este", "lakers", "players.csv"] →
        leer_csv fs' q2 = leer_csv exFS q2) ∧
      ((∀ x ∈ ub, x.id ≠ "b") →
        (leer_csv fs' ["este", "lakers", "players.csv"]).filter
          (fun x => x.id = "b") = [fila'])) :=
  ⟨by rfl, by rfl,
    C2_actualizar_updates exFS [] "b" exCambios exRowB
      ["este", "lakers", "players.csv"] (by rfl) (by rfl)⟩

/-- Claim C3 counterexample: with two rows sharing the identifier `x` in
one file, `eliminar_jugador` returns true but removes both rows, so the
file does not shrink by exactly one row. -/
theorem C3_counterexample :
    (eliminar_jugador dupFS [] "x").1 = true ∧
    leer_csv dupFS ["este", "alpha", "players.csv"] = [dupRowA, dupRowB] ∧
    leer_csv (eliminar_jugador dupFS [] "x").2
      ["este", "alpha", "players.csv"] = [] ∧
    (leer_csv (eliminar_jugador dupFS [] "x").2
        ["este", "alpha", "players.csv"]).length + 1 ≠
      (leer_csv dupFS ["este", "alpha", "players.csv"]).length :=
  ⟨rfl, rfl, rfl, by decide⟩

/-- Claim C3 (amended): deleting an existing identifier returns true and
rewrites only the origin file of the first matching record in traversal
order, removing from it every row with that identifier — exactly one row
(one fewer row in the file) when the identifier occurs at most once in that
file, as is the case for every identifier the system itself generated. -/
theorem C3_eliminar_amended (fs : FS) (b : Path) (jid : String) (r₀ : Row)
    (p₀ : Path) (hwf : fs.wfB = true)
    (hfind : (leer_todos_los_jugadores fs b).find?
      (fun x => x.1.id = jid) = some (r₀, p₀)) :
    ∃ fs', eliminar_jugador fs b jid = (true, fs') ∧
      leer_csv fs' p₀ = (leer_csv fs p₀).filter (fun f => f.id ≠ jid) ∧
      (∀ q2, q2 ≠ p₀ → leer_csv fs' q2 = leer_csv fs q2) ∧
      ((leer_csv fs p₀).countP (fun f => f.id = jid) = 1 →
        (leer_csv fs' p₀).length + 1 = (leer_csv fs p₀).length) := by
  obtain ⟨pre, post, hl, hpre, hy⟩ := find_first_decomp _ _ _ hfind
  have hid : r₀.id = jid := of_decide_eq_true hy
  have hpre' : ∀ x ∈ pre, x.1.id ≠ jid := fun x hx =>
    of_decide_eq_false (hpre x hx)
  have hmem : (r₀, p₀) ∈ leer_todos_los_jugadores fs b := by
    rw [hl]
    simp
  obtain ⟨q, rows, hp₀, hlk, hr₀mem⟩ :=
    leer_todos_sound fs b r₀ p₀ hwf hmem
  have heq : eliminar_jugador fs b jid =
      (true, escribir_csv fs p₀
        ((leer_csv fs p₀).filter (fun f => f.id ≠ jid))) := by
    rw [eliminar_jugador, hl]
    exact eliminarGo_first fs jid pre post r₀ p₀ hpre' hid
  have hleer : leer_csv fs p₀ = rows := leer_csv_of_lookup fs p₀ rows hlk
  refine ⟨_, heq, ?_, ?_, ?_⟩
  · simp only [escribir_csv]
    exact leer_csv_of_lookup _ p₀ _ (FS.lookup_write_self fs p₀ _ rows hlk)
  · intro q2 hq2
    simp only [escribir_csv]
    exact leer_csv_write_ne fs p₀ q2 _ rows hlk hq2
  · intro hcount
    simp only [escribir_csv]
    rw [leer_csv_of_lookup _ p₀ _ (FS.lookup_write_self fs p₀ _ rows hlk)]
    exact filter_ne_length_of_unique _ jid hcount

/-- Claim C3 witness (amended form): deleting the sample record `a`
rewrites only its file, which shrinks by exactly one row. -/
theorem C3_witness :
    FS.wfB exFS = true ∧
    (leer_todos_los_jugadores exFS []).find? (fun x => x.1.id = "a") =
      some (exRowA, ["este", "lakers", "players.csv"]) ∧
    (∃ fs', eliminar_jugador exFS [] "a" = (true, fs') ∧
      leer_csv fs' ["este", "lakers", "players.csv"] =
        (leer_csv exFS ["este", "lakers", "players.csv"]).filter
          (fun f => f.id ≠ "a") ∧
      (∀ q2, q2 ≠ ["este", "lakers", "players.csv"] →
        leer_csv fs' q2 = leer_csv exFS q2) ∧
      ((leer_csv exFS ["este", "lakers", "players.csv"]).countP
          (fun f => f.id = "a") = 1 →
        (leer_csv fs' ["este", "lakers", "players.csv"]).length + 1 =
          (leer_csv exFS ["este", "lakers", "players.csv"]).length)) :=
  ⟨by rfl, by rfl,
    C3_eliminar_amended exFS [] "a" exRowA
      ["este", "lakers", "players.csv"] (by rfl) (by rfl)⟩

/-- Claim C6: deleting an identifier that matches no record returns false —
not an error — and changes nothing; in particular, after a successful
delete of an identifier whose matches all lived in the rewritten file, a
second delete of the same identifier returns false and changes nothing. -/
theorem C6_eliminar_not_found (fs : FS) (b : Path) (jid : String) (r₀ : Row)
    (p₀ : Path) :
    ((∀ x ∈ leer_todos_los_jugadores fs b, x.1.id ≠ jid) →
      eliminar_jugador fs b jid = (false, fs)) ∧
    (fs.wfB = true →
      (leer_todos_los_jugadores fs b).find? (fun x => x.1.id = jid) =
        some (r₀, p₀) →
      (∀ x ∈ leer_todos_los_jugadores fs b, x.1.id = jid → x.2 = p₀) →
      eliminar_jugador (eliminar_jugador fs b jid).2 b jid =
        (false, (eliminar_jugador fs b jid).2)) := by
  constructor
  · intro h
    exact eliminarGo_none fs jid _ h
  · intro hwf hfind hall
    obtain ⟨pre, post, hl, hpre, hy⟩ := find_first_decomp _ _ _ hfind
    have hid : r₀.id = jid := of_decide_eq_true hy
    have hpre' : ∀ x ∈ pre, x.1.id ≠ jid := fun x hx =>
      of_decide_eq_false (hpre x hx)
    have hmem : (r₀, p₀) ∈ leer_todos_los_jugadores fs b := by
      rw [hl]
      simp
    obtain ⟨q, rows, hp₀, hlk, hr₀mem⟩ :=
      leer_todos_sound fs b r₀ p₀ hwf hmem
    have heq : eliminar_jugador fs b jid =
        (true, escribir_csv fs p₀
          ((leer_csv fs p₀).filter (fun f => f.id ≠ jid))) := by
      rw [eliminar_jugador, hl]
      exact eliminarGo_first fs jid pre post r₀ p₀ hpre' hid
    rw [heq]
    set filtered := (leer_csv fs p₀).filter (fun f => f.id ≠ jid) with hfil
    have hwf' : (escribir_csv fs p₀ filtered).wfB = true :=
      FS.wfB_write fs p₀ filtered hwf
    have hnomatch : ∀ x ∈ leer_todos_los_jugadores
        (escribir_csv fs p₀ filtered) b, x.1.id ≠ jid := by
      rintro ⟨r, p⟩ hx
      obtain ⟨q2, rows2, hp2, hlk2, hr2⟩ :=
        leer_todos_sound _ b r p hwf' hx
      by_cases hpp : p = p₀
      · subst hpp
        simp only [escribir_csv] at hlk2
        have hws := FS.lookup_write_self fs p filtered rows hlk
        rw [hws] at hlk2
        have hrows2 : rows2 = filtered := by
          simpa using hlk2.symm
        rw [hrows2, hfil] at hr2
        have := List.mem_filter.mp hr2
        simpa using this.2
      · have hfa : fileAt (escribir_csv fs p₀ filtered) p = fileAt fs p := by
          simp only [escribir_csv]
          exact fileAt_write_ne fs p₀ p filtered rows hlk hpp
        have hlk3 : fs.lookup p = some (.file rows2) := by
          rw [← fileAt_eq_some_iff]
          rw [← hfa]
          rw [fileAt_eq_some_iff]
          exact hlk2
        intro hidr
        apply hpp
        apply hall (r, p) _ hidr
        rw [hp2]
        rw [hp2] at hlk3
        exact leer_todos_complete fs b q2 rows2 r hwf hlk3 hr2
    exact eliminarGo_none _ jid _ hnomatch

/-- Claim C6 witness: deleting a missing identifier returns false and a
successful delete followed by the same delete returns false, all on the
sample hierarchy. -/
theorem C6_witness :
    eliminar_jugador exFS [] "zz" = (false, exFS) ∧
    eliminar_jugador (eliminar_jugador exFS [] "a").2 [] "a" =
      (false, (eliminar_jugador exFS [] "a").2) :=
  ⟨(C6_eliminar_not_found exFS [] "zz" exRowA []).1 (by decide),
   (C6_eliminar_not_found exFS [] "a" exRowA
      ["este", "lakers", "players.csv"]).2 (by rfl) (by rfl) (by decide)⟩

/-- Claim C8: the identifier is immutable under update — any successful
`actualizar_jugador`, even one whose changes mapping contains an id key,
returns a record whose identifier is the searched one and leaves the
stored identifier column of every file unchanged. -/
theorem C8_id_immutable (fs : FS) (b : Path) (jid : String)
    (cambios : Cambios) (fila' : Row) (fs' : FS)
    (h : actualizar_jugador fs b jid cambios = (.ok fila', fs')) :
    fila'.id = jid ∧
    ∀ q, (leer_csv fs' q).map Row.id = (leer_csv fs q).map Row.id := by
  obtain ⟨origen, rows', hEn, hfs'⟩ :=
    actualizarGo_ok fs jid cambios (leer_todos_los_jugadores fs b)
      fila' fs' h
  obtain ⟨ua, fila, ub, hlcsv, hpre, hidf, hap, hrows'⟩ :=
    actualizarEnFila_some jid cambios _ rows' fila' hEn
  have hfid : fila'.id = jid := by rw [hap, aplicarCambios]; exact hidf
  have hlk : fs.lookup origen = some (.file (ua ++ fila :: ub)) := by
    rw [← hlcsv]
    apply lookup_of_leer_csv_ne_nil
    rw [hlcsv]
    simp
  refine ⟨hfid, fun q => ?_⟩
  by_cases hq : q = origen
  · subst hq
    rw [hfs']
    simp only [escribir_csv]
    rw [leer_csv_of_lookup _ q _
      (FS.lookup_write_self fs q rows' (ua ++ fila :: ub) hlk), hlcsv,
      hrows']
    simp only [List.map_append, List.map_cons]
    rw [hfid, ← hidf]
  · rw [hfs']
    simp only [escribir_csv]
    rw [leer_csv_write_ne fs origen q rows' (ua ++ fila :: ub) hlk hq]

/-- Claim C8 witness: updating record `b` with a changes mapping that also
carries an id key returns the record still identified by `b` and leaves the
stored identifier column unchanged. -/
theorem C8_witness :
    (⟨"b", "Bob", "alero", "25", "6", "4"⟩ : Row).id = "b" ∧
    (leer_csv (actualizar_jugador exFS [] "b" exCambios).2
        ["este", "lakers", "players.csv"]).map Row.id =
      (leer_csv exFS ["este", "lakers", "players.csv"]).map Row.id :=
  ⟨(C8_id_immutable exFS [] "b" exCambios
      ⟨"b", "Bob", "alero", "25", "6", "4"⟩
      (actualizar_jugador exFS [] "b" exCambios).2 (by rfl)).1,
   (C8_id_immutable exFS [] "b" exCambios
      ⟨"b", "Bob", "alero", "25", "6", "4"⟩
      (actualizar_jugador exFS [] "b" exCambios).2 (by rfl)).2
     ["este", "lakers", "players.csv"]⟩

/-- Claim C7: a fully valid creation returns a record with a non-empty
fresh identifier, the trimmed name, the lower-cased position and numeric
statistics; the stringified record is appended to the team's file; and a
subsequent creation never returns the same identifier. -/
theorem C7_alta_success (fs : FS) (g : UuidGen) (b : Path)
    (conf equipo : String) (j : JugadorInput) (nom pos : String)
    (pt rb asi : PyVal) (xp xr xa : ℚ)
    (hwf : fs.wfB = true) (hcan : fs.canMkdirs (b ++ [conf, equipo]) = true)
    (hnd : noDirAt fs (b ++ [conf, equipo, CSV_FILENAME]) = true)
    (hnom : j.nombre = some nom) (hpos : j.posicion = some pos)
    (hpt : j.puntos = some pt) (hrb : j.rebotes = some rb)
    (hasi : j.asistencias = some asi)
    (hvn : validar_nombre nom = true) (hvp : validar_posicion pos = true)
    (hxp : pt.toFloat? = some xp) (hxr : rb.toFloat? = some xr)
    (hxa : asi.toFloat? = some xa)
    (hgep : 0 ≤ xp) (hger : 0 ≤ xr) (hgea : 0 ≤ xa) :
    ∃ nuevo, (alta_jugador fs g b conf equipo j).result = .ok nuevo ∧
      nuevo.id = mkUuid g.counter ∧ nuevo.id ≠ "" ∧
      nuevo.nombre = pyStrip nom ∧ nuevo.posicion = pyLower pos ∧
      nuevo.puntos = xp ∧ nuevo.rebotes = xr ∧ nuevo.asistencias = xa ∧
      (alta_jugador fs g b conf equipo j).gen = ⟨g.counter + 1⟩ ∧
      leer_csv (alta_jugador fs g b conf equipo j).fs
          (b ++ [conf, equipo, CSV_FILENAME]) =
        leer_csv fs (b ++ [conf, equipo, CSV_FILENAME]) ++ [nuevo.toRow] ∧
      (∀ fs2 conf2 equipo2 j2 nuevo2,
        (alta_jugador fs2 (alta_jugador fs g b conf equipo j).gen b conf2
            equipo2 j2).result = .ok nuevo2 → nuevo2.id ≠ nuevo.id) := by
  have heq := alta_ok_eq fs g b conf equipo j nom pos pt rb asi xp xr xa
    hnom hpos hpt hrb hasi hvn hvp hxp hxr hxa hgep hger hgea
  obtain ⟨hpr2, hlkcsv, hLT, hwf2⟩ := alta_prep fs b conf equipo hwf hcan hnd
  refine ⟨⟨mkUuid g.counter, pyStrip nom, pyLower pos, xp, xr, xa⟩,
    by rw [heq], rfl, mkUuid_ne_empty g.counter, rfl, rfl, rfl, rfl, rfl,
    by rw [heq], ?_, ?_⟩
  · rw [heq]
    simp only [hpr2]
    have hold := leer_csv_of_lookup _ _ _ hlkcsv
    rw [hold]
    exact leer_csv_of_lookup _ _ _
      (FS.lookup_write_self _ _ _ _ hlkcsv)
  · intro fs2 conf2 equipo2 j2 nuevo2 hok2
    obtain ⟨_, _, _, _, _, _, _, _, _, _, _, _, _, _, _, _, _, _, _, _, _,
      hnuevo2⟩ := alta_ok_inv fs2 _ b conf2 equipo2 j2 nuevo2 hok2
    rw [hnuevo2]
    intro hEq
    have hcounter : (alta_jugador fs g b conf equipo j).gen.counter =
        g.counter + 1 := by rw [heq]
    have := mkUuid_inj _ _ hEq
    rw [hcounter] at this
    omega

/-- Claim C7 witness: one concrete valid creation on an empty tree,
followed by any second creation, instantiating every conclusion. -/
theorem C7_witness :
    ∃ nuevo, (alta_jugador .nilDir ⟨0⟩ [] "este" "lakers"
        exInput).result = .ok nuevo ∧
      nuevo.id = mkUuid 0 ∧ nuevo.id ≠ "" ∧
      nuevo.nombre = pyStrip "  Ana " ∧ nuevo.posicion = pyLower "BASE" ∧
      nuevo.puntos = 10 ∧ nuevo.rebotes = 5 ∧
      nuevo.asistencias = Rat.divInt 7 2 ∧
      (alta_jugador .nilDir ⟨0⟩ [] "este" "lakers" exInput).gen = ⟨1⟩ ∧
      leer_csv (alta_jugador .nilDir ⟨0⟩ [] "este" "lakers" exInput).fs
          ["este", "lakers", "players.csv"] =
        leer_csv .nilDir ["este", "lakers", "players.csv"]
          ++ [nuevo.toRow] ∧
      (∀ fs2 conf2 equipo2 j2 nuevo2,
        (alta_jugador fs2
            (alta_jugador .nilDir ⟨0⟩ [] "este" "lakers" exInput).gen []
            conf2 equipo2 j2).result = .ok nuevo2 →
          nuevo2.id ≠ nuevo.id) :=
  C7_alta_success .nilDir ⟨0⟩ [] "este" "lakers" exInput "  Ana " "BASE"
    (.str "10") (.num 5) (.str "3.5") 10 5 (Rat.divInt 7 2)
    (by rfl) (by rfl) (by rfl) (by rfl) (by rfl) (by rfl) (by rfl)
    (by rfl) (by rfl) (by rfl) (by rfl) (by rfl) (by rfl) (by decide)
    (by decide) (by decide)

/-- Claim C10: a creation whose input passes validation (a missing
statistic key validates as 0) but lacks one of the keys puntos, rebotes or
asistencias raises a KeyError naming the first missing key — and only
after the team directory and a header-only record-file have been created,
so the filesystem is mutated before the error; the identifier supply is
untouched. -/
theorem C10_missing_stat_keyerror (fs : FS) (g : UuidGen) (b : Path)
    (conf equipo : String) (j : JugadorInput)
    (hwf : fs.wfB = true) (hcan : fs.canMkdirs (b ++ [conf, equipo]) = true)
    (hnd : noDirAt fs (b ++ [conf, equipo, CSV_FILENAME]) = true)
    (hvn : validar_nombre (j.nombre.getD "") = true)
    (hvp : validar_posicion (j.posicion.getD "") = true)
    (hv1 : validar_estadistica (j.puntos.getD (.num 0)) = true)
    (hv2 : validar_estadistica (j.rebotes.getD (.num 0)) = true)
    (hv3 : validar_estadistica (j.asistencias.getD (.num 0)) = true)
    (hmiss : j.puntos = none ∨ j.rebotes = none ∨ j.asistencias = none) :
    (alta_jugador fs g b conf equipo j).result =
      .error (keyErrorMsg j) ∧
    (j.puntos = none → keyErrorMsg j = "KeyError: puntos") ∧
    (j.puntos ≠ none → j.rebotes = none →
      keyErrorMsg j = "KeyError: rebotes") ∧
    (j.puntos ≠ none → j.rebotes ≠ none → j.asistencias = none →
      keyErrorMsg j = "KeyError: asistencias") ∧
    (alta_jugador fs g b conf equipo j).fs.lookup
        (b ++ [conf, equipo, CSV_FILENAME]) =
      some (.file (leer_csv fs (b ++ [conf, equipo, CSV_FILENAME]))) ∧
    (fs.lookup (b ++ [conf, equipo, CSV_FILENAME]) = none →
      (alta_jugador fs g b conf equipo j).fs ≠ fs) ∧
    (alta_jugador fs g b conf equipo j).gen = g := by
  have heq := alta_keyerror_eq fs g b conf equipo j hvn hvp hv1 hv2 hv3
    hmiss
  obtain ⟨hpr2, hlkcsv, hLT, hwf2⟩ := alta_prep fs b conf equipo hwf hcan hnd
  obtain ⟨nom, hnom⟩ : ∃ nom, j.nombre = some nom := by
    cases hn : j.nombre with
    | none =>
        rw [hn] at hvn
        simp [validar_nombre, pyStrip] at hvn
    | some nom => exact ⟨nom, rfl⟩
  obtain ⟨pos, hpos⟩ : ∃ pos, j.posicion = some pos := by
    cases hn : j.posicion with
    | none =>
        rw [hn] at hvp
        simp [validar_posicion, pyLower, posiciones_validas] at hvp
    | some pos => exact ⟨pos, rfl⟩
  refine ⟨by rw [heq], ?_, ?_, ?_, by rw [heq]; exact hlkcsv, ?_,
    by rw [heq]⟩
  · intro hp
    simp [keyErrorMsg, hnom, hpos, hp]
  · intro hp hr
    simp [keyErrorMsg, hnom, hpos, Option.isNone_iff_eq_none, hp, hr]
  · intro hp hr ha
    simp [keyErrorMsg, hnom, hpos, Option.isNone_iff_eq_none, hp, hr, ha]
  · intro hnone hEqFs
    rw [heq] at hEqFs
    simp only at hEqFs
    rw [hEqFs] at hlkcsv
    rw [hnone] at hlkcsv
    cases hlkcsv

/-- Claim C10 witness: creating on an empty tree with the puntos key
missing raises the puntos KeyError after creating the directory and the
header-only CSV, mutating the filesystem. -/
theorem C10_witness :
    (alta_jugador .nilDir ⟨0⟩ [] "este" "lakers" exInputMissing).result =
      .error (keyErrorMsg exInputMissing) ∧
    keyErrorMsg exInputMissing = "KeyError: puntos" ∧
    (alta_jugador .nilDir ⟨0⟩ [] "este" "lakers"
        exInputMissing).fs.lookup ["este", "lakers", "players.csv"] =
      some (.file (leer_csv .nilDir ["este", "lakers", "players.csv"])) ∧
    (alta_jugador .nilDir ⟨0⟩ [] "este" "lakers" exInputMissing).fs ≠
      .nilDir ∧
    (alta_jugador .nilDir ⟨0⟩ [] "este" "lakers" exInputMissing).gen =
      ⟨0⟩ := by
  have h := C10_missing_stat_keyerror .nilDir ⟨0⟩ [] "este" "lakers"
    exInputMissing (by rfl) (by rfl) (by rfl) (by decide) (by decide)
    (by decide) (by decide) (by decide) (Or.inl rfl)
  exact ⟨h.1, h.2.1 rfl, h.2.2.2.2.1, h.2.2.2.2.2.1 rfl, h.2.2.2.2.2.2⟩

end SegundoParcial
